import Mathlib

/-!
Gateway: a verification development.

Shallow embedding of the request pipeline of the gateway
(`internal/middlewares/...`, `internal/proxy`, `internal/service`) and
theorems about it.

Conventions of the embedding:

* Go `string` is Lean `String`; `strings.HasPrefix`, `strings.TrimPrefix`
  and `strings.Split` are defined on the character list of the string.
* Go `int`, `int64`, `time.Duration` and `time.Time` are `Int` (a time is a
  number of nanoseconds on the wall clock).  The only increment of the
  embedded code, `window.count++`, runs under `window.count < f.maxCount` and
  cannot overflow; `time.Since` saturates only for instants more than 292
  years apart, a range the model does not bound.
* A Go `map[string]T` is a function `String → Option T`
  (`none` for an absent key); assignment to a key is `Map.set`.
* A value of type `error` is an element of an inductive type of the
  sentinel errors; `(T, error)` results are `Except`.
-/

set_option autoImplicit false

namespace Gateway

/-! ## Go maps -/

/-- Assignment `m[key] = v` on a Go map seen as a lookup function. -/
def Map.set {β : Type} (m : String → Option β) (key : String) (v : β) :
    String → Option β :=
  fun k => if k = key then some v else m k

/-! ## Go standard library: package strings -/

namespace strings

/-- Go `strings.HasPrefix(s, p)`: `s` begins with `p`. -/
def HasPrefix (s p : String) : Bool :=
  p.data.isPrefixOf s.data

/-- Go `strings.TrimPrefix(s, p)`: `s` without the leading `p` when `s` begins
with `p` (one occurrence only), `s` itself otherwise. -/
def TrimPrefix (s p : String) : String :=
  if HasPrefix s p then String.mk (s.data.drop p.data.length) else s

/-- The pieces of a character list between the occurrences of `sep`; there is
always at least one piece. -/
def splitChars (sep : Char) : List Char → List (List Char)
  | [] => [[]]
  | c :: cs =>
    if c = sep then [] :: splitChars sep cs
    else
      match splitChars sep cs with
      | [] => [[c]]
      | piece :: pieces => (c :: piece) :: pieces

/-- Go `strings.Split(s, sep)` for a separator of one character, the only use
the gateway makes of it (`" "` and `"."`). -/
def Split (s : String) (sep : Char) : List String :=
  (splitChars sep s.data).map String.mk

end strings

/-! ## The token library: claims of a parsed token -/

namespace jwt

/-- A Go value of type `any` as found in the claims of a parsed token: the
decoding of a JSON value.  `object` is a `map[string]any`, given by its
entries; the value of a key is that of its first entry. -/
inductive Value where
  | null
  | bool (b : Bool)
  | number (n : Int)
  | string (s : String)
  | array (xs : List Value)
  | object (entries : List (String × Value))

/-- Go `jwt.MapClaims`, a `map[string]any`. -/
abbrev MapClaims := List (String × Value)

/-- Go `claims[part]` with its `ok` flag. -/
def MapClaims.get (claims : MapClaims) (part : String) : Option Value :=
  List.lookup part claims

/-- Go `*jwt.Token`, reduced to its `Claims` field: `some m` when the dynamic
type of `Claims` is `jwt.MapClaims`, `none` otherwise (nil or another type). -/
structure Token where
  Claims : Option MapClaims

end jwt

/-! ## Go standard library: package net/http -/

namespace http

/-- Go `http.Header`, a `map[string][]string`, given by its entries in the
order in which a `range` loop visits them; the values of a key are those of
its first entry. -/
abbrev Header := List (String × List String)

/-- Go `h[key]` with its `ok` flag (no canonicalisation of `key`). -/
def Header.values (h : Header) (key : String) : Option (List String) :=
  List.lookup key h

/-- Go `h.Del(key)` for a key already in canonical form. -/
def Header.Del (h : Header) (key : String) : Header :=
  h.filter (fun entry => entry.1 ≠ key)

/-- Go `h.Set(key, value)` for a key already in canonical form: the values of
`key` are replaced by the single value `value`. -/
def Header.Set (h : Header) (key value : String) : Header :=
  (key, [value]) :: Header.Del h key

/-- Go `h.Get(key)` for a key already in canonical form: the first value of
`key`, or the empty string. -/
def Header.Get (h : Header) (key : String) : String :=
  match Header.values h key with
  | some (v :: _) => v
  | _ => ""

/-- Go `*http.Request` as the gateway reads it: method, `URL.Path`,
`URL.RawQuery`, headers, body, and the limit put on the body by
`http.MaxBytesReader` if any. -/
structure Request where
  Method : String := "GET"
  Path : String := "/"
  RawQuery : String := ""
  Header : Header := []
  Body : String := ""
  MaxBytes : Option Int := none

/-- The request that `Forward` sends upstream: the arguments of
`http.NewRequest` and the headers assigned to it. -/
structure UpstreamRequest where
  Method : String
  URL : String
  Header : Header
  Body : String
  MaxBytes : Option Int

/-- Go `*http.Response` as returned by `client.Do`: the body is given by the
successive reads of `res.Body`, and `ReadErr` tells whether these reads end
with an error other than end of file. -/
structure Response where
  StatusCode : Nat
  Header : Header
  Body : List String
  ReadErr : Bool := false

def StatusOK : Nat := 200
def StatusBadRequest : Nat := 400
def StatusUnauthorized : Nat := 401
def StatusRequestEntityTooLarge : Nat := 413
def StatusTooManyRequests : Nat := 429
def StatusRequestHeaderFieldsTooLarge : Nat := 431
def StatusBadGateway : Nat := 502

end http

/-! ## The routing substrate (gin): response writer, context, handler chain

The gateway is written against gin's `Context`.  The substrate is outside the
repository; what follows is the part of its behaviour the handlers rely on. -/

namespace gin

/-- The response writer of a context.  `status` is the status code of the
response: it can be changed until the header is written, which the first body
write or an explicit flush does; from then on it is the status that was sent.
`header` is the header map and `body` the successive body writes. -/
structure ResponseWriter where
  status : Nat := 200
  written : Bool := false
  header : http.Header := []
  body : List String := []

/-- Writer method `WriteHeader(code)`: records the status code; without effect
on the response once the header is written. -/
def ResponseWriter.WriteHeader (w : ResponseWriter) (code : Nat) : ResponseWriter :=
  if 0 < code ∧ w.status ≠ code then
    if w.written then w else { w with status := code }
  else w

/-- Writer method `WriteHeaderNow()`: sends the header, with the current
status, unless already sent. -/
def ResponseWriter.WriteHeaderNow (w : ResponseWriter) : ResponseWriter :=
  if w.written then w else { w with written := true }

/-- Writer method `Write(data)`: sends the header if need be, then the data. -/
def ResponseWriter.Write (w : ResponseWriter) (data : String) : ResponseWriter :=
  { w.WriteHeaderNow with body := w.WriteHeaderNow.body ++ [data] }

/-- The context of one request: the request, the response writer, and whether
the chain was aborted (`c.IsAborted()`). -/
structure Context where
  Request : http.Request := {}
  Writer : ResponseWriter := {}
  aborted : Bool := false

/-- Context method `Status(code)`. -/
def Context.Status (c : Context) (code : Nat) : Context :=
  { c with Writer := c.Writer.WriteHeader code }

/-- Context method `Abort()`: the handlers still pending will not be called. -/
def Context.Abort (c : Context) : Context :=
  { c with aborted := true }

/-- Context method `AbortWithStatus(code)`: `Status(code)`, `WriteHeaderNow()`,
`Abort()`. -/
def Context.AbortWithStatus (c : Context) (code : Nat) : Context :=
  let c1 := c.Status code
  Context.Abort { c1 with Writer := c1.Writer.WriteHeaderNow }

/-- The renderer's `writeContentType`: sets `Content-Type` to the JSON content
type unless the header map already has a value for it. -/
def writeContentType (w : ResponseWriter) : ResponseWriter :=
  match http.Header.values w.header "Content-Type" with
  | some (_ :: _) => w
  | _ => { w with header :=
            ("Content-Type", ["application/json; charset=utf-8"]) ::
              http.Header.Del w.header "Content-Type" }

/-- The JSON encoding of a Go string that holds no character JSON escapes, as
all the messages of the gateway are. -/
def jsonString (msg : String) : String :=
  "\"" ++ msg ++ "\""

/-- Context method `JSON(code, msg)` for a string `msg` and a status code that
allows a body (all those the gateway uses do): sets the status, sets
`Content-Type` unless present, writes the encoded message.  It does not abort
the chain. -/
def Context.JSON (c : Context) (code : Nat) (msg : String) : Context :=
  let c1 := c.Status code
  { c1 with Writer := (writeContentType c1.Writer).Write (jsonString msg) }

/-- Context method `AbortWithStatusJSON(code, msg)`: `Abort()` then
`JSON(code, msg)`. -/
def Context.AbortWithStatusJSON (c : Context) (code : Nat) (msg : String) : Context :=
  (c.Abort).JSON code msg

/-- Context method `GetHeader(key)` for a key in canonical form, such as
`"Authorization"`: the first value of the request header, or `""`. -/
def Context.GetHeader (c : Context) (key : String) : String :=
  http.Header.Get c.Request.Header key

/-- Context method `Header(key, value)`, a shortcut for
`c.Writer.Header().Set(key, value)`; an empty `value` removes the header, as
`c.Writer.Header().Del(key)`.  `canon` is the canonicalisation of header keys
done by `Set` and `Del`. -/
def Context.Header (canon : String → String) (c : Context) (key value : String) : Context :=
  if value = "" then
    { c with Writer := { c.Writer with header := http.Header.Del c.Writer.header (canon key) } }
  else
    { c with Writer := { c.Writer with header := http.Header.Set c.Writer.header (canon key) value } }

/-- How the body of a handler ends: with the call `c.Next()` as its last
statement, or with a plain return. -/
inductive Ctl where
  | next
  | ret
deriving DecidableEq, Repr

end gin

/-! ## internal/middlewares/auth/claim_checker.go -/

namespace auth

/-- The sentinel errors of package `auth`; `wrap msg e` is
`fmt.Errorf(msg + ": %w", e)`. -/
inductive Error where
  | ErrNoAuthHeader
  | ErrMalformatedAuthHeader
  | ErrInvalidClaim
  | ErrTokenKeyNotFound
  | ErrInvalidClaimType
  | ErrUnsupportedClaimType
  | wrap (msg : String) (err : Error)
deriving DecidableEq, Repr

/-- Go `errors.Is(e, target)` for a sentinel `target`: `e` is `target` or wraps it. -/
def Error.Is : Error → Error → Bool
  | .wrap msg err, target => (Error.wrap msg err == target) || Error.Is err target
  | e, target => e == target

/-- Go `type ClaimCheckerConfig struct`. -/
structure ClaimCheckerConfig where
  TokenKey : String
  ClaimType : String
  Values : List String
deriving DecidableEq, Repr

/-- Go `type claimChecker struct`. -/
structure claimChecker where
  tokenKey : String
  claimType : String
deriving DecidableEq, Repr

/-- Go `func newClaimChecker(conf ClaimCheckerConfig) *claimChecker`. -/
def newClaimChecker (conf : ClaimCheckerConfig) : claimChecker :=
  { tokenKey := conf.TokenKey, claimType := conf.ClaimType }

/-- The loop `for i, part := range parts` of `findClaim`: `n` is `len(parts)`,
`i` the index of the first part of the list still to visit, `claims` the
mapping reached so far.  Running out of parts is the `return` after the loop. -/
def findClaimLoop (n : Nat) : Nat → List String → jwt.MapClaims → Except Error jwt.Value
  | _, [], _ => .error Error.ErrTokenKeyNotFound
  | i, part :: parts, claims =>
    match claims.get part with
    | none => .error Error.ErrTokenKeyNotFound
    | some claim =>
      if (i : Int) = (n : Int) - 1 then .ok claim
      else
        match claim with
        | .object entries => findClaimLoop n (i + 1) parts entries
        | _ => .error Error.ErrInvalidClaim

/-- Go `func findClaim(key string, token *jwt.Token) (any, error)`. -/
def findClaim (key : String) (token : jwt.Token) : Except Error jwt.Value :=
  match token.Claims with
  | none => .error Error.ErrInvalidClaim
  | some claims =>
    let parts := strings.Split key '.'
    findClaimLoop parts.length 0 parts claims

/-- The loop over the elements of a list claim in `check`, case `"[]string"`. -/
def checkElements (acceptedValues : List String) : List jwt.Value → Bool × Option Error
  | [] => (false, none)
  | .string strValue :: rest =>
    if acceptedValues.contains strValue then (true, none)
    else checkElements acceptedValues rest
  | _ :: _ =>
    (false, some (Error.wrap "can't cast claim element to string" Error.ErrInvalidClaimType))

/-- Go `func (c *claimChecker) check(token *jwt.Token, acceptedValues []string)
(bool, error)`; the second component is `none` for a nil error. -/
def claimChecker.check (c : claimChecker) (token : jwt.Token) (acceptedValues : List String) :
    Bool × Option Error :=
  match findClaim c.tokenKey token with
  | .error err => (false, some err)
  | .ok rawClaim =>
    if c.claimType = "string" then
      match rawClaim with
      | .string claim => (acceptedValues.contains claim, none)
      | _ => (false, some (Error.wrap "can't cast claim to string" Error.ErrInvalidClaimType))
    else if c.claimType = "[]string" then
      match rawClaim with
      | .array claim => checkElements acceptedValues claim
      | _ => (false, some (Error.wrap "can't cast claim to []string" Error.ErrInvalidClaimType))
    else (false, some Error.ErrUnsupportedClaimType)

end auth

/-! ## internal/middlewares/auth/auth.go -/

namespace auth

/-- Go `type AuthMiddlewareConfig struct`. -/
structure AuthMiddlewareConfig where
  ProviderURL : String := ""
  ClientID : String := ""
  AuthorizedRoles : ClaimCheckerConfig := { TokenKey := "", ClaimType := "", Values := [] }
  RequiredPermissions : ClaimCheckerConfig := { TokenKey := "", ClaimType := "", Values := [] }
deriving DecidableEq, Repr

/-- Go `type AuthMiddleware struct`.  The external verifier is the function
`Verifier`: `Verifier rawToken = true` when `a.Verifier.Verify(ctx, rawToken)`
returns a nil error. -/
structure AuthMiddleware where
  Verifier : String → Bool
  roleChecker : claimChecker
  permissionChecker : claimChecker

/-- Go `func NewAuthMiddleware(conf AuthMiddlewareConfig) (*AuthMiddleware, error)`.
`newProvider` is the provider discovery `oidc.NewProvider`: `none` when it
fails, otherwise the verifier the provider builds for a client id. -/
def NewAuthMiddleware (newProvider : String → Option (String → String → Bool))
    (conf : AuthMiddlewareConfig) : Option AuthMiddleware :=
  match newProvider conf.ProviderURL with
  | none => none
  | some provider =>
    some { Verifier := provider conf.ClientID
           roleChecker := newClaimChecker conf.AuthorizedRoles
           permissionChecker := newClaimChecker conf.RequiredPermissions }

/-- Go `func extractToken(c *gin.Context) (string, error)`. -/
def extractToken (c : gin.Context) : Except Error String :=
  let authorization := c.GetHeader "Authorization"
  if authorization = "" then .error Error.ErrNoAuthHeader
  else
    match strings.Split authorization ' ' with
    | [_, token] => .ok token
    | _ => .error Error.ErrMalformatedAuthHeader

/-- Go `func (a *AuthMiddleware) Guard(acceptedRoles, acceptedPermissions []string)
gin.HandlerFunc`: the handler it returns, run on a context.  `parseUnverified`
is `jwt.NewParser().ParseUnverified(rawToken, jwt.MapClaims{})`, `none` when it
returns an error. -/
def AuthMiddleware.Guard (parseUnverified : String → Option jwt.Token) (a : AuthMiddleware)
    (acceptedRoles acceptedPermissions : List String) (c : gin.Context) :
    gin.Context × gin.Ctl :=
  match extractToken c with
  | .error _ => (c.AbortWithStatusJSON http.StatusUnauthorized "missing token", gin.Ctl.ret)
  | .ok rawToken =>
    if a.Verifier rawToken = false then
      (c.AbortWithStatusJSON http.StatusUnauthorized "invalid token", gin.Ctl.ret)
    else
      match parseUnverified rawToken with
      | none => (c.AbortWithStatusJSON http.StatusUnauthorized "invalid token", gin.Ctl.ret)
      | some token =>
        let roles : Option String :=
          if acceptedRoles.length > 0 then
            match a.roleChecker.check token acceptedRoles with
            | (_, some _) => some "invalid role"
            | (false, none) => some "invalid role"
            | (true, none) => none
          else none
        match roles with
        | some msg => (c.AbortWithStatusJSON http.StatusUnauthorized msg, gin.Ctl.ret)
        | none =>
          let permissions : Option String :=
            if acceptedPermissions.length > 0 then
              match a.permissionChecker.check token acceptedPermissions with
              | (_, some _) => some "invalid permission"
              | (false, none) => some "invalid role"
              | (true, none) => none
            else none
          match permissions with
          | some msg => (c.AbortWithStatusJSON http.StatusUnauthorized msg, gin.Ctl.ret)
          | none => (c, gin.Ctl.next)

end auth

/-! ## internal/middlewares/ratelimiters/fixed_window_counter.go -/

namespace ratelimiters

/-- Go `type counter struct { timestamp time.Time; count int }`. -/
structure counter where
  timestamp : Int
  count : Int
deriving DecidableEq, Repr

/-- Go `type fixedWindowCounter struct`; the mutex `mu` serialises the calls of
`allow`, which is what makes `allow` a step function on this state. -/
structure fixedWindowCounter where
  window : Int
  maxCount : Int
  counters : String → Option counter

/-- Go `func (f *fixedWindowCounter) allow(key string) bool`, with the reading
of the clock made explicit: `now` is the instant of the call, `time.Since(ts)`
is `now - ts`.  The result is the state after the call and the returned
boolean. -/
def fixedWindowCounter.allow (f : fixedWindowCounter) (key : String) (now : Int) :
    fixedWindowCounter × Bool :=
  match f.counters key with
  | none =>
    ({ f with counters := Map.set f.counters key { timestamp := now, count := 1 } }, true)
  | some window =>
    if now - window.timestamp > f.window then
      ({ f with counters := Map.set f.counters key { timestamp := now, count := 1 } }, true)
    else if window.count < f.maxCount then
      ({ f with counters := Map.set f.counters key { window with count := window.count + 1 } },
        true)
    else
      (f, false)

/-- Successive calls `allow(key)` at the instants of `times`, in order: the
final state and the list of the returned booleans. -/
def allowSeq (f : fixedWindowCounter) (key : String) :
    List Int → fixedWindowCounter × List Bool
  | [] => (f, [])
  | t :: ts =>
    let r := f.allow key t
    let rs := allowSeq r.1 key ts
    (rs.1, r.2 :: rs.2)

/-- The limiter of `TestFixedWindowCounterAllow`, in nanoseconds: a window of
two seconds, at most two calls, no entry yet. -/
def testLimiter : fixedWindowCounter :=
  { window := 2000000000, maxCount := 2, counters := fun _ => none }

end ratelimiters

/-! ## internal/middlewares/ratelimiters/limiting_key_retriever.go, rate_limiter.go -/

namespace ratelimiters

/-- The errors a key retriever returns: the sentinels of package
`ratelimiters`, and the errors of the token library (`parseError` from
`ParseUnverified`, `invalidSubType` from `GetSubject`). -/
inductive Error where
  | ErrNoAuthHeader
  | ErrMalformatedAuthHeader
  | ErrMissingSubClaim
  | parseError
  | invalidSubType
deriving DecidableEq, Repr

/-- Go `type KeyRetriever func(c *gin.Context) (string, error)`. -/
abbrev KeyRetriever := gin.Context → Except Error String

/-- Go `token.Claims.GetSubject()` on map claims: the string under `"sub"`,
the empty string when the key is absent, an error when it is not a string.
A token returned by the parser called with `jwt.MapClaims{}` carries map
claims; any other token counts as a parse error. -/
def GetSubject (token : jwt.Token) : Except Error String :=
  match token.Claims with
  | none => .error Error.parseError
  | some claims =>
    match claims.get "sub" with
    | none => .ok ""
    | some (.string sub) => .ok sub
    | some _ => .error Error.invalidSubType

/-- Go `var retrieveSubClaim = func(c *gin.Context) (string, error)`. -/
def retrieveSubClaim (parseUnverified : String → Option jwt.Token) : KeyRetriever :=
  fun c =>
    let authorization := c.GetHeader "Authorization"
    if authorization = "" then .error Error.ErrNoAuthHeader
    else
      match strings.Split authorization ' ' with
      | [_, rawToken] =>
        match parseUnverified rawToken with
        | none => .error Error.parseError
        | some token =>
          match GetSubject token with
          | .error err => .error err
          | .ok sub => if sub = "" then .error Error.ErrMissingSubClaim else .ok sub
      | _ => .error Error.ErrMalformatedAuthHeader

/-- Go `var defaultKeyRetriever = func(c *gin.Context) (string, error)`. -/
def defaultKeyRetriever : KeyRetriever :=
  fun _ => .ok "global"

/-- Go `func selectKeyRetriever(limitBy string) KeyRetriever`. -/
def selectKeyRetriever (parseUnverified : String → Option jwt.Token) (limitBy : String) :
    KeyRetriever :=
  if limitBy = "sub_claim" then retrieveSubClaim parseUnverified
  else defaultKeyRetriever

/-- Go `type RateLimiterConfig struct`. -/
structure RateLimiterConfig where
  LimitBy : String := ""
  Window : Int := 0
  MaxCount : Int := 0
deriving DecidableEq, Repr

/-- Go `type RateLimiter struct`. -/
structure RateLimiter where
  limiter : fixedWindowCounter
  retrieveLimitingKey : KeyRetriever

/-- Go `func NewRateLimiter(conf RateLimiterConfig) *RateLimiter`. -/
def NewRateLimiter (parseUnverified : String → Option jwt.Token) (conf : RateLimiterConfig) :
    RateLimiter :=
  { limiter := { window := conf.Window, maxCount := conf.MaxCount, counters := fun _ => none }
    retrieveLimitingKey := selectKeyRetriever parseUnverified conf.LimitBy }

/-- Go `func (r *RateLimiter) Allow() gin.HandlerFunc`: the handler it returns,
run at the instant `now` on a context; the result holds the limiter after the
call.  The two rejections answer with `c.JSON` and return. -/
def RateLimiter.Allow (r : RateLimiter) (now : Int) (c : gin.Context) :
    RateLimiter × gin.Context × gin.Ctl :=
  match r.retrieveLimitingKey c with
  | .error _ => (r, c.JSON http.StatusBadRequest "Bad Request", gin.Ctl.ret)
  | .ok key =>
    let res := r.limiter.allow key now
    if res.2 = false then
      ({ r with limiter := res.1 }, c.JSON http.StatusTooManyRequests "rate limit exceeded",
        gin.Ctl.ret)
    else
      ({ r with limiter := res.1 }, c, gin.Ctl.next)

end ratelimiters

/-! ## internal/middlewares/bodysizelimiter, internal/middlewares/headersizelimiter -/

namespace bodysizelimiter

/-- Go `func Limit(maxBodyBytes int64) gin.HandlerFunc`: the body of the request
is wrapped in `http.MaxBytesReader`. -/
def Limit (maxBodyBytes : Int) (c : gin.Context) : gin.Context × gin.Ctl :=
  ({ c with Request := { c.Request with MaxBytes := some maxBodyBytes } }, gin.Ctl.next)

end bodysizelimiter

namespace headersizelimiter

/-- The loop `for key, val := range c.Request.Header` of `Limit`: `headerSize`
is the running total, the result tells whether the limit was exceeded. -/
def exceeds (maxHeaderBytes : Int) : Int → http.Header → Bool
  | _, [] => false
  | headerSize, (key, val) :: rest =>
    let headerSize := headerSize + (key.utf8ByteSize : Int) + (val.length : Int)
    if headerSize > maxHeaderBytes then true else exceeds maxHeaderBytes headerSize rest

/-- Go `func Limit(maxHeaderBytes int) gin.HandlerFunc`. -/
def Limit (maxHeaderBytes : Int) (c : gin.Context) : gin.Context × gin.Ctl :=
  if exceeds maxHeaderBytes 0 c.Request.Header then
    (c.AbortWithStatusJSON http.StatusRequestHeaderFieldsTooLarge "headers too large", gin.Ctl.ret)
  else (c, gin.Ctl.next)

end headersizelimiter

/-! ## internal/proxy/proxy.go -/

namespace proxy

/-- The sentinel error of package `proxy`. -/
inductive Error where
  | ErrUnknownPathPrefix
deriving DecidableEq, Repr

/-- Go `func buildTargetURL(c *gin.Context, sourcePathPrefix, targetBaseURL string)
(string, error)`. -/
def buildTargetURL (c : gin.Context) (sourcePathPrefix targetBaseURL : String) :
    Except Error String :=
  if strings.HasPrefix c.Request.Path sourcePathPrefix = false then
    .error Error.ErrUnknownPathPrefix
  else .ok (targetBaseURL ++ strings.TrimPrefix c.Request.Path sourcePathPrefix)

/-- Go `func copyResponseHeaders(res *http.Response, c *gin.Context)`. -/
def copyResponseHeaders (canon : String → String) (res : http.Response) (c : gin.Context) :
    gin.Context :=
  res.Header.foldl
    (fun c entry => entry.2.foldl (fun c value => gin.Context.Header canon c entry.1 value) c) c

/-- Go `io.Copy(c.Writer, res.Body)`: one `Write` for each non-empty read. -/
def ioCopy (w : gin.ResponseWriter) (body : List String) : gin.ResponseWriter :=
  body.foldl (fun w chunk => if chunk = "" then w else w.Write chunk) w

/-- Go `func Forward(sourcePathPrefix, targetBaseURL string) gin.HandlerFunc`: the
handler it returns, run on a context.  `newRequest method url` tells whether
`http.NewRequest` succeeds, `client` is `client.Do` (`none` for an error), and
`canon` the canonicalisation of header keys.  The result holds the context
after the call and the request handed to `client.Do`, if any. -/
def Forward (newRequest : String → String → Bool)
    (client : http.UpstreamRequest → Option http.Response) (canon : String → String)
    (sourcePathPrefix targetBaseURL : String) (c : gin.Context) :
    gin.Context × Option http.UpstreamRequest × gin.Ctl :=
  match buildTargetURL c sourcePathPrefix targetBaseURL with
  | .error _ => (c.AbortWithStatus http.StatusBadGateway, none, gin.Ctl.ret)
  | .ok url =>
    let targetURL := if c.Request.RawQuery ≠ "" then url ++ "?" ++ c.Request.RawQuery else url
    if newRequest c.Request.Method targetURL = false then
      (c.AbortWithStatus http.StatusBadGateway, none, gin.Ctl.ret)
    else
      let req : http.UpstreamRequest :=
        { Method := c.Request.Method, URL := targetURL, Header := c.Request.Header,
          Body := c.Request.Body, MaxBytes := c.Request.MaxBytes }
      match client req with
      | none => (c.AbortWithStatus http.StatusBadGateway, some req, gin.Ctl.ret)
      | some res =>
        let c1 : gin.Context := { c with Writer := ioCopy c.Writer res.Body }
        if res.ReadErr then (c1.AbortWithStatus http.StatusBadGateway, some req, gin.Ctl.ret)
        else
          let c2 := c1.Status res.StatusCode
          let c3 := copyResponseHeaders canon res c2
          ({ c3 with Writer := c3.Writer.WriteHeaderNow }, some req, gin.Ctl.ret)

end proxy

/-! ## internal/service -/

namespace service

/-- Go `type EndpointAuth struct`. -/
structure EndpointAuth where
  Enabled : Bool := false
  AuthorizedRoles : List String := []
  RequiredPermission : List String := []
deriving DecidableEq, Repr

/-- Go `type EndpointRateLimit struct`; a nil pointer is `none`. -/
structure EndpointRateLimit where
  Enabled : Bool := false
  LimitBy : Option String := none
  Window : Option Int := none
  MaxCount : Option Int := none
deriving DecidableEq, Repr

/-- Go `type EndpointConfiguration struct`; a nil pointer is `none`. -/
structure EndpointConfiguration where
  Method : String := ""
  Path : String := ""
  Auth : Option EndpointAuth := none
  RateLimit : Option EndpointRateLimit := none
  MaxBodySize : Option Int := none
  MaxHeaderSize : Option Int := none
deriving DecidableEq, Repr

/-- Go `type ServiceAuthConfig struct`. -/
structure ServiceAuthConfig where
  Enabled : Bool := false
  AuthMiddlewareConfig : auth.AuthMiddlewareConfig := {}
deriving DecidableEq, Repr

/-- Go `type ServiceRateLimitConfig struct`, with the embedded
`ratelimiters.RateLimiterConfig` as a field. -/
structure ServiceRateLimitConfig where
  Enabled : Bool := false
  RateLimiterConfig : ratelimiters.RateLimiterConfig := {}
deriving DecidableEq, Repr

/-- Go `type ServiceMiddlewares struct`. -/
structure ServiceMiddlewares where
  Auth : ServiceAuthConfig := {}
  MaxBodySize : Int := 0
  MaxHeaderSize : Int := 0
  RateLimit : ServiceRateLimitConfig := {}
deriving DecidableEq, Repr

/-- Go `type Config struct`. -/
structure Config where
  Name : String := ""
  PathPrefix : String := ""
  BaseURL : String := ""
  Middlewares : ServiceMiddlewares := {}
  Endpoints : List EndpointConfiguration := []
deriving DecidableEq, Repr

/-- First statement of `MergeFromServiceConfiguration`:
`if e.MaxBodySize == nil && conf.Middlewares.MaxBodySize > 0`. -/
def EndpointConfiguration.mergeMaxBodySize (e : EndpointConfiguration) (conf : Config) :
    EndpointConfiguration :=
  if e.MaxBodySize = none ∧ conf.Middlewares.MaxBodySize > 0 then
    { e with MaxBodySize := some conf.Middlewares.MaxBodySize }
  else e

/-- Second statement of `MergeFromServiceConfiguration`:
`if e.MaxHeaderSize == nil && conf.Middlewares.MaxHeaderSize > 0`. -/
def EndpointConfiguration.mergeMaxHeaderSize (e : EndpointConfiguration) (conf : Config) :
    EndpointConfiguration :=
  if e.MaxHeaderSize = none ∧ conf.Middlewares.MaxHeaderSize > 0 then
    { e with MaxHeaderSize := some conf.Middlewares.MaxHeaderSize }
  else e

/-- Third statement of `MergeFromServiceConfiguration`, "injecting whole server
rate limit config": `if e.RateLimit == nil && conf.Middlewares.RateLimit.Enabled`. -/
def EndpointConfiguration.inheritRateLimit (e : EndpointConfiguration) (conf : Config) :
    EndpointConfiguration :=
  if e.RateLimit = none ∧ conf.Middlewares.RateLimit.Enabled = true then
    let inherited : EndpointRateLimit :=
      { Enabled := true
        LimitBy := some conf.Middlewares.RateLimit.RateLimiterConfig.LimitBy
        Window := some conf.Middlewares.RateLimit.RateLimiterConfig.Window
        MaxCount := some conf.Middlewares.RateLimit.RateLimiterConfig.MaxCount }
    { e with RateLimit := some inherited }
  else e

/-- The three inner statements of the fourth statement of
`MergeFromServiceConfiguration`: each field of the rate-limit block that is nil
takes the value of the service. -/
def EndpointRateLimit.backfill (rl : EndpointRateLimit) (conf : Config) : EndpointRateLimit :=
  let rl1 : EndpointRateLimit :=
    if rl.LimitBy = none then
      { rl with LimitBy := some conf.Middlewares.RateLimit.RateLimiterConfig.LimitBy }
    else rl
  let rl2 : EndpointRateLimit :=
    if rl1.Window = none then
      { rl1 with Window := some conf.Middlewares.RateLimit.RateLimiterConfig.Window }
    else rl1
  if rl2.MaxCount = none then
    { rl2 with MaxCount := some conf.Middlewares.RateLimit.RateLimiterConfig.MaxCount }
  else rl2

/-- Fourth statement of `MergeFromServiceConfiguration`:
`if e.RateLimit != nil && e.RateLimit.Enabled`. -/
def EndpointConfiguration.backfillRateLimit (e : EndpointConfiguration) (conf : Config) :
    EndpointConfiguration :=
  match e.RateLimit with
  | some rl => if rl.Enabled = true then { e with RateLimit := some (rl.backfill conf) } else e
  | none => e

/-- Fifth statement of `MergeFromServiceConfiguration`:
`if e.Auth == nil && conf.Middlewares.Auth.Enabled`. -/
def EndpointConfiguration.inheritAuth (e : EndpointConfiguration) (conf : Config) :
    EndpointConfiguration :=
  if e.Auth = none ∧ conf.Middlewares.Auth.Enabled = true then
    let inherited : EndpointAuth :=
      { Enabled := true
        AuthorizedRoles := conf.Middlewares.Auth.AuthMiddlewareConfig.AuthorizedRoles.Values
        RequiredPermission :=
          conf.Middlewares.Auth.AuthMiddlewareConfig.RequiredPermissions.Values }
    { e with Auth := some inherited }
  else e

/-- Go `func (e *EndpointConfiguration) MergeFromServiceConfiguration(conf Config)`:
the endpoint after the call, that is after its five statements in order. -/
def EndpointConfiguration.MergeFromServiceConfiguration (e : EndpointConfiguration)
    (conf : Config) : EndpointConfiguration :=
  ((((e.mergeMaxBodySize conf).mergeMaxHeaderSize conf).inheritRateLimit conf).backfillRateLimit
    conf).inheritAuth conf

/-- Go `type Service struct`.  `authMiddleware` is `none` for the zero value,
which is what `New` leaves when auth is disabled. -/
structure Service where
  name : String := ""
  baseURL : String := ""
  gatewayPathPrefix : String := ""
  authMiddleware : Option auth.AuthMiddleware := none
  authEnabled : Bool := false
  maxBodySize : Int := 0
  maxHeaderSize : Int := 0
  endpoints : List EndpointConfiguration := []

/-- Go `func New(conf Config) (*Service, error)`; `none` is the error of
`auth.NewAuthMiddleware`. -/
def New (newProvider : String → Option (String → String → Bool)) (conf : Config) :
    Option Service :=
  let service : Service :=
    { name := conf.Name
      baseURL := conf.BaseURL
      gatewayPathPrefix := conf.PathPrefix
      authEnabled := conf.Middlewares.Auth.Enabled
      maxBodySize := conf.Middlewares.MaxBodySize
      maxHeaderSize := conf.Middlewares.MaxHeaderSize
      endpoints := conf.Endpoints.map (fun endpoint =>
        endpoint.MergeFromServiceConfiguration conf) }
  if service.authEnabled then
    match auth.NewAuthMiddleware newProvider conf.Middlewares.Auth.AuthMiddlewareConfig with
    | none => none
    | some authMiddleware => some { service with authMiddleware := some authMiddleware }
  else some service

/-- A `gin.HandlerFunc` built by the gateway, as the constructor call that
makes it: the closures are kept apart by what they were built from. -/
inductive HandlerFunc where
  | Guard (a : Option auth.AuthMiddleware) (acceptedRoles acceptedPermissions : List String)
  | BodyLimit (maxBodyBytes : Int)
  | HeaderLimit (maxHeaderBytes : Int)
  | Allow (conf : ratelimiters.RateLimiterConfig)
  | Forward (sourcePathPrefix targetBaseURL : String)

/-- The kinds of stage of a handler chain. -/
inductive Stage where
  | auth
  | bodySize
  | headerSize
  | rateLimit
  | forwarder
deriving DecidableEq, Repr

/-- The kind of stage a handler is. -/
def HandlerFunc.stage : HandlerFunc → Stage
  | .Guard _ _ _ => Stage.auth
  | .BodyLimit _ => Stage.bodySize
  | .HeaderLimit _ => Stage.headerSize
  | .Allow _ => Stage.rateLimit
  | .Forward _ _ => Stage.forwarder

/-- Go `func (s *Service) buildMiddlewaresChain(endpoint EndpointConfiguration)
[]gin.HandlerFunc`.  The result is `none` when the function dereferences a nil
pointer (`endpoint.Auth` with service auth enabled, or a field of an enabled
`endpoint.RateLimit`). -/
def Service.buildMiddlewaresChain (s : Service) (endpoint : EndpointConfiguration) :
    Option (List HandlerFunc) := do
  let handlers : List HandlerFunc := []
  let handlers ←
    if s.authEnabled then
      match endpoint.Auth with
      | none => none
      | some a =>
        if a.Enabled then
          some (handlers ++ [HandlerFunc.Guard s.authMiddleware a.AuthorizedRoles
            a.RequiredPermission])
        else some handlers
    else some handlers
  let handlers :=
    match endpoint.MaxBodySize with
    | some n => handlers ++ [HandlerFunc.BodyLimit n]
    | none => handlers
  let handlers :=
    match endpoint.MaxHeaderSize with
    | some n => handlers ++ [HandlerFunc.HeaderLimit n]
    | none => handlers
  match endpoint.RateLimit with
  | none => some handlers
  | some rl =>
    if rl.Enabled then
      match rl.LimitBy, rl.Window, rl.MaxCount with
      | some limitBy, some window, some maxCount =>
        some (handlers ++
          [HandlerFunc.Allow { LimitBy := limitBy, Window := window, MaxCount := maxCount }])
      | _, _, _ => none
    else some handlers

/-- One route of the router: the arguments of `router.Handle`. -/
structure Route where
  Method : String
  Path : String
  Handlers : List HandlerFunc

/-- The loop `for _, endpoint := range s.endpoints` of `AttachEndpoints` over
the endpoints still to attach, the router being the list of the routes
registered so far.  `accepts router route` tells whether `router.Handle` takes
the route on a router that holds the routes `router`; where it does not
(the method and path are registered already, the method is empty or invalid,
the path conflicts with a registered one) `Handle` panics.  The result is
`none` when building a chain reads a nil pointer or `Handle` panics. -/
def Service.attachLoop (accepts : List Route → Route → Bool) (s : Service) :
    List EndpointConfiguration → List Route → Option (List Route)
  | [], router => some router
  | endpoint :: rest, router =>
    match s.buildMiddlewaresChain endpoint with
    | none => none
    | some middlewares =>
      let handlers : List HandlerFunc := []
      let handlers := handlers ++ middlewares
      let handlers := handlers ++ [HandlerFunc.Forward s.gatewayPathPrefix s.baseURL]
      let route : Route :=
        { Method := endpoint.Method, Path := s.gatewayPathPrefix ++ endpoint.Path,
          Handlers := handlers }
      if accepts router route then Service.attachLoop accepts s rest (router ++ [route])
      else none

/-- Go `func (s *Service) AttachEndpoints(router *gin.Engine)`: the routes of
the router after the call, `accepts` being the acceptance test of
`router.Handle`. -/
def Service.AttachEndpoints (accepts : List Route → Route → Bool) (s : Service)
    (router : List Route) : Option (List Route) :=
  s.attachLoop accepts s.endpoints router

/-- Whether `router.Handle` takes the given routes one after the other, each
on the router that holds the routes taken before it. -/
def acceptsAll (accepts : List Route → Route → Bool) : List Route → List Route → Bool
  | _, [] => true
  | router, route :: routes =>
    accepts router route && acceptsAll accepts (router ++ [route]) routes

/-- The stages that apply to an endpoint of a service, in the words of the
specification of the pipeline: auth when the service's auth and the
endpoint's auth are both enabled, the body-size limit when `MaxBodySize` is
set, the header-size limit when `MaxHeaderSize` is set, the rate limit when
`RateLimit` is present and enabled; the forwarder always. -/
def specStageApplies (s : Service) (endpoint : EndpointConfiguration) : Stage → Bool
  | Stage.auth =>
    s.authEnabled && (match endpoint.Auth with
      | some a => a.Enabled
      | none => false)
  | Stage.bodySize => endpoint.MaxBodySize.isSome
  | Stage.headerSize => endpoint.MaxHeaderSize.isSome
  | Stage.rateLimit =>
    match endpoint.RateLimit with
    | some rl => rl.Enabled
    | none => false
  | Stage.forwarder => true

end service

/-! ## A request going through a handler chain -/

/-- What the handlers of one chain read and change while a request goes
through it: the context of the request, the rate limiter of the endpoint, the
clock, and the requests handed to the upstream client so far. -/
structure World where
  c : gin.Context := {}
  limiter : ratelimiters.RateLimiter
  now : Int := 0
  upstream : List http.UpstreamRequest := []

/-- A handler of a chain, as a step on the world. -/
abbrev Handler := World → World × gin.Ctl

/-- The dispatch loop of the substrate (`Context.Next`) over the handlers
still pending: each handler runs in turn, and the next one runs unless the
current one aborted the context.  A handler that ends with `c.Next()` and one
that returns plainly both hand over to the next handler. -/
def runChain : List Handler → World → World
  | [], w => w
  | h :: rest, w =>
    let w1 := (h w).1
    if w1.c.aborted then w1 else runChain rest w1

/-- The handler `r.Allow()` of the endpoint's rate limiter, as a step on the world. -/
def allowHandler : Handler :=
  fun w =>
    let r := w.limiter.Allow w.now w.c
    ({ w with limiter := r.1, c := r.2.1 }, r.2.2)

/-- The handler `proxy.Forward(sourcePathPrefix, targetBaseURL)`, as a step on
the world. -/
def forwardHandler (newRequest : String → String → Bool)
    (client : http.UpstreamRequest → Option http.Response) (canon : String → String)
    (sourcePathPrefix targetBaseURL : String) : Handler :=
  fun w =>
    let r := proxy.Forward newRequest client canon sourcePathPrefix targetBaseURL w.c
    ({ w with c := r.1, upstream := w.upstream ++ r.2.1.toList }, r.2.2)

/-- The handler `a.Guard(acceptedRoles, acceptedPermissions)`, as a step on the world. -/
def guardHandler (parseUnverified : String → Option jwt.Token) (a : auth.AuthMiddleware)
    (acceptedRoles acceptedPermissions : List String) : Handler :=
  fun w =>
    let r := a.Guard parseUnverified acceptedRoles acceptedPermissions w.c
    ({ w with c := r.1 }, r.2)

/-- A new request arriving on a chain: a fresh context for the request, at the
instant `now`, with the limiter and the upstream log that the previous
requests left. -/
def arrive (w : World) (request : http.Request) (now : Int) : World :=
  { w with c := { Request := request }, now := now }

/-- A request served by a chain: it arrives, then the chain runs. -/
def serve (chain : List Handler) (w : World) (request : http.Request) (now : Int) : World :=
  runChain chain (arrive w request now)

/-- An upstream that answers every request with an empty 200 response. -/
def upstreamOK : http.UpstreamRequest → Option http.Response :=
  fun _ => some { StatusCode := 200, Header := [], Body := [] }

/-- The chain of an endpoint with a rate limit and no other middleware, as
`AttachEndpoints` registers it: the limiter's `Allow()` then `Forward`. -/
def limitedChain : List Handler :=
  [allowHandler, forwardHandler (fun _ _ => true) upstreamOK id "/service" "http://up"]

/-- A world before any request, with the limiter `NewRateLimiter` builds for a
window of two seconds and at most two calls. -/
def freshWorld (limitBy : String) : World :=
  { limiter := ratelimiters.NewRateLimiter (fun _ => none)
      { LimitBy := limitBy, Window := 2000000000, MaxCount := 2 } }

/-- A request `GET /service/test` without headers. -/
def testRequest : http.Request :=
  { Method := "GET", Path := "/service/test" }

/-- The world after two requests, at 0 s and 1 s, were served by the rate-limited
chain with one counter for all callers: the budget of the window is used up. -/
def twoServed : World :=
  serve limitedChain (serve limitedChain (freshWorld "global") testRequest 0) testRequest
    1000000000

/-- An upstream that answers every request `404` with the body `not found`. -/
def upstreamNotFound : http.UpstreamRequest → Option http.Response :=
  fun _ => some { StatusCode := 404, Header := [], Body := ["not found"] }

/-- An upstream response that sets two cookies. -/
def twoCookies : http.Response :=
  { StatusCode := 200, Header := [("Set-Cookie", ["a=1", "b=2"])], Body := [] }

/-- The context of a request `GET /service/test?q=yes`. -/
def queryContext : gin.Context :=
  { Request := { Method := "GET", Path := "/service/test", RawQuery := "q=yes" } }

/-! ## Dotted paths and nested claims, in the words of the specification -/

/-- The dotted path made of the given segments: `["access", "role"]` gives
`"access.role"`. -/
def joinDots : List String → String
  | [] => ""
  | seg :: rest =>
    match rest with
    | [] => seg
    | _ :: _ => seg ++ "." ++ joinDots rest

/-- The claims mapping built by setting `path = value` through nested
mappings: `nest ["access", "role"] v` is `{"access": {"role": v}}`. -/
def nest : List String → jwt.Value → jwt.MapClaims
  | [], _ => []
  | seg :: rest, value =>
    match rest with
    | [] => [(seg, value)]
    | _ :: _ => [(seg, jwt.Value.object (nest rest value))]

/-- The mapping reached from `claims` by descending through the given
segments, each of which must resolve to a nested mapping. -/
def walk : List String → jwt.MapClaims → Option jwt.MapClaims
  | [], claims => some claims
  | seg :: rest, claims =>
    match claims.get seg with
    | some (jwt.Value.object entries) => walk rest entries
    | _ => none

/-- Whether a claim value is a nested mapping. -/
def jwt.Value.isObject : jwt.Value → Bool
  | jwt.Value.object _ => true
  | _ => false

/-- The token of the test "nested keys with string type":
`{"access": {"role": "user"}}`. -/
def nestedToken : jwt.Token :=
  { Claims := some [("access", jwt.Value.object [("role", jwt.Value.string "user")])] }

/-- An auth middleware whose verifier accepts exactly the token `good`, with a
role checker on the string claim `role`. -/
def testAuth : auth.AuthMiddleware :=
  { Verifier := fun rawToken => rawToken = "good"
    roleChecker := { tokenKey := "role", claimType := "string" }
    permissionChecker := { tokenKey := "permission", claimType := "string" } }

/-- A parser for which every raw token carries the claims `{"role": "user"}`. -/
def testParse : String → Option jwt.Token :=
  fun _ => some { Claims := some [("role", jwt.Value.string "user")] }

/-- The context of a request carrying the given `Authorization` header. -/
def bearerContext (authorization : String) : gin.Context :=
  { Request := { Method := "GET", Path := "/service/test",
                 Header := [("Authorization", [authorization])] } }

/-- The configuration of the test "All middlewares activated". -/
def allActivated : service.Config :=
  { Name := "TestService"
    PathPrefix := "/api"
    BaseURL := "http://localhost:8080"
    Middlewares :=
      { Auth := { Enabled := true, AuthMiddlewareConfig := { ClientID := "myapp" } }
        MaxBodySize := 10
        MaxHeaderSize := 10
        RateLimit :=
          { Enabled := true
            RateLimiterConfig := { LimitBy := "sub_claims", Window := 10000, MaxCount := 5 } } }
    Endpoints := [{ Method := "GET", Path := "/test" }] }

/-- A provider discovery that always succeeds, with a verifier that accepts
every token. -/
def testProvider : String → Option (String → String → Bool) :=
  fun _ => some (fun _ _ => true)

/-- The service `New` builds from `allActivated` with `testProvider`; its one
endpoint is the declared `GET /test` merged with the configuration. -/
def activatedService : service.Service :=
  { name := "TestService"
    baseURL := "http://localhost:8080"
    gatewayPathPrefix := "/api"
    authMiddleware := some
      { Verifier := fun _ => true
        roleChecker := { tokenKey := "", claimType := "" }
        permissionChecker := { tokenKey := "", claimType := "" } }
    authEnabled := true
    maxBodySize := 10
    maxHeaderSize := 10
    endpoints :=
      [{ Method := "GET"
         Path := "/test"
         Auth := some { Enabled := true }
         RateLimit := some
           { Enabled := true, LimitBy := some "sub_claims", Window := some 10000,
             MaxCount := some 5 }
         MaxBodySize := some 10
         MaxHeaderSize := some 10 }] }

/-- An acceptance test for `router.Handle` that refuses a route whose method
is empty and a route whose method and path are registered already, two of the
cases in which the router panics. -/
def refuseDuplicates : List service.Route → service.Route → Bool :=
  fun router route =>
    route.Method ≠ "" &&
      !(router.any (fun r => r.Method == route.Method && r.Path == route.Path))

/-- The configuration `allActivated` with its endpoint declared twice. -/
def declaredTwice : service.Config :=
  { allActivated with Endpoints := allActivated.Endpoints ++ allActivated.Endpoints }

/-- The service `activatedService` with its endpoint listed twice, the one
`New` builds from `declaredTwice`. -/
def twiceService : service.Service :=
  { activatedService with endpoints := activatedService.endpoints ++ activatedService.endpoints }

/-- The routes of a router, each reduced to its method, its path and the
stages of its handlers. -/
def routeStages (routes : Option (List service.Route)) :
    Option (List (String × String × List service.Stage)) :=
  routes.map (fun rs => rs.map (fun route =>
    (route.Method, route.Path, route.Handlers.map service.HandlerFunc.stage)))

/-- Whether a claim value is a string. -/
def jwt.Value.isString : jwt.Value → Bool
  | jwt.Value.string _ => true
  | _ => false

/-- Whether a claim value is a list. -/
def jwt.Value.isArray : jwt.Value → Bool
  | jwt.Value.array _ => true
  | _ => false

/-- A token whose claims are `{"role": value}`, as in the tests of the claim
checker. -/
def roleToken (value : jwt.Value) : jwt.Token :=
  { Claims := some [("role", value)] }

/-- The service configuration of the rate-limit tests of the merge:
`{enabled, sub_claim, 1h, 10}`, the hour in nanoseconds. -/
def rateLimitedConf : service.Config :=
  { Middlewares :=
      { RateLimit :=
          { Enabled := true
            RateLimiterConfig :=
              { LimitBy := "sub_claim", Window := 3600000000000, MaxCount := 10 } } } }

/-- An endpoint that declares the rate limit `{enabled, maxCount 14}` only. -/
def maxCountOnly : service.EndpointConfiguration :=
  { RateLimit := some { Enabled := true, MaxCount := some 14 } }

/-- The service configuration of the test "Auth well merged". -/
def authConf : service.Config :=
  { Middlewares :=
      { Auth :=
          { Enabled := true
            AuthMiddlewareConfig :=
              { ProviderURL := "http://provider.com"
                ClientID := "my"
                AuthorizedRoles := { TokenKey := "key", ClaimType := "type", Values := ["user"] }
                RequiredPermissions :=
                  { TokenKey := "key", ClaimType := "type", Values := ["user"] } } } } }

/-- An endpoint that opts out of auth: its auth block is present and disabled. -/
def optOut : service.EndpointConfiguration :=
  { Method := "GET", Path := "/open", Auth := some { Enabled := false } }

/-! ## Runs of the fixed-window counter -/

/-- Successive calls `allow(key)` for the keys and at the instants of `calls`,
in order: the state after the last call. -/
def allowCalls (f : ratelimiters.fixedWindowCounter) :
    List (String × Int) → ratelimiters.fixedWindowCounter
  | [] => f
  | call :: calls => allowCalls (f.allow call.1 call.2).1 calls

/-- The limiter `NewRateLimiter` builds for a window and a maximal count: no
entry for any key. -/
def emptyLimiter (window maxCount : Int) : ratelimiters.fixedWindowCounter :=
  { window := window, maxCount := maxCount, counters := fun _ => none }

/-- Among successive calls `allow(key)` at the instants `times`, the number of
admitted calls whose instant lies in the span `[a, b]`. -/
def admittedWithin (a b : Int) (f : ratelimiters.fixedWindowCounter) (key : String)
    (times : List Int) : Nat :=
  ((times.zip (ratelimiters.allowSeq f key times).2).filter
    (fun call => call.2 && decide (a ≤ call.1) && decide (call.1 ≤ b))).length

/-- An endpoint that declares an enabled auth block with no role and no
permission of its own. -/
def bareAuth : service.EndpointConfiguration :=
  { Method := "GET", Path := "/bare", Auth := some { Enabled := true } }

/-! ## Sizes of a header map -/

/-- The total size in bytes of all header names and all header values, the
size the specification gives to the headers of a request. -/
def specHeaderBytes (h : http.Header) : Int :=
  (h.map (fun entry =>
    (entry.1.utf8ByteSize : Int) + (entry.2.map (fun v => (v.utf8ByteSize : Int))).sum)).sum

/-- The sum over all header entries of the length of the name plus the number
of values of the entry. -/
def headerMeasure (h : http.Header) : Int :=
  (h.map (fun entry => (entry.1.utf8ByteSize : Int) + (entry.2.length : Int))).sum

/-- The context of a request with the one header `X-Token`, of 7 bytes, whose
one value has 32 bytes. -/
def tokenHeaderContext : gin.Context :=
  { Request := { Header := [("X-Token", ["0123456789abcdef0123456789abcdef"])] } }

/-- The context of the tests of the header-size limiter: the one header
`test: test`. -/
def testHeaderContext : gin.Context :=
  { Request := { Header := [("test", ["test"])] } }

/-! ## Theorems -/

open ratelimiters

theorem Map.set_same {β : Type} (m : String → Option β) (key : String) (v : β) :
    Map.set m key v key = some v := by
  simp [Map.set]

theorem Map.set_other {β : Type} (m : String → Option β) (key k : String) (v : β)
    (h : k ≠ key) : Map.set m key v k = m k := by
  simp [Map.set, h]

/-- C1: one call `allow(k)` at time `t`.  If `k` has no entry, or its entry is
older than the window (`t - timestamp > window`), the entry becomes `(t, 1)`
and the call is admitted; otherwise, if `count < maxCount`, the count grows by
exactly one, the timestamp is kept and the call is admitted; otherwise the
call is denied and the entry (indeed the whole map) is unchanged.  In every
case `window` and `maxCount` are unchanged. -/
theorem allow_step (f : fixedWindowCounter) (k : String) (t : Int) :
    ((f.counters k = none ∨ ∃ e, f.counters k = some e ∧ t - e.timestamp > f.window) →
        (f.allow k t).2 = true ∧
        (f.allow k t).1.counters k = some { timestamp := t, count := 1 }) ∧
    (∀ e, f.counters k = some e → ¬ (t - e.timestamp > f.window) → e.count < f.maxCount →
        (f.allow k t).2 = true ∧
        (f.allow k t).1.counters k =
          some { timestamp := e.timestamp, count := e.count + 1 }) ∧
    (∀ e, f.counters k = some e → ¬ (t - e.timestamp > f.window) → ¬ (e.count < f.maxCount) →
        (f.allow k t).2 = false ∧
        (f.allow k t).1.counters = f.counters) ∧
    (f.allow k t).1.window = f.window ∧ (f.allow k t).1.maxCount = f.maxCount := by
  refine ⟨?_, ?_, ?_, ?_, ?_⟩
  · rintro (h | ⟨e, he, hlt⟩)
    · simp [fixedWindowCounter.allow, h, Map.set_same]
    · simp [fixedWindowCounter.allow, he, hlt, Map.set_same]
  · intro e he h1 h2
    simp [fixedWindowCounter.allow, he, h1, h2, Map.set_same]
  · intro e he h1 h2
    simp [fixedWindowCounter.allow, he, h1, h2]
  · unfold fixedWindowCounter.allow
    split
    · rfl
    · split_ifs <;> rfl
  · unfold fixedWindowCounter.allow
    split
    · rfl
    · split_ifs <;> rfl

/-- Witness of C1 on the limiter of the test: the first call, at time 0, is
admitted and stores `(0, 1)`. -/
theorem allow_step_witness :
    (testLimiter.allow "id" 0).2 = true ∧
    (testLimiter.allow "id" 0).1.counters "id" = some { timestamp := 0, count := 1 } :=
  (allow_step testLimiter "id" 0).1 (Or.inl rfl)

/-- Calls made while the stored window `(t0, c)` of `k` is still open (every
time is at most `t0 + window`): the `i`-th of them is admitted iff
`c + i < maxCount`, and the stored timestamp stays `t0`. -/
theorem allowSeq_open_window (f : fixedWindowCounter) (k : String) (t0 : Int) (ts : List Int) :
    ∀ (c : Int) (counters : String → Option counter),
      counters k = some { timestamp := t0, count := c } →
      (∀ t ∈ ts, t ≤ t0 + f.window) →
      (allowSeq { f with counters := counters } k ts).2 =
          (List.range ts.length).map (fun (i : Nat) => decide (c + (i : Int) < f.maxCount)) ∧
      (∃ c', (allowSeq { f with counters := counters } k ts).1.counters k =
          some { timestamp := t0, count := c' }) ∧
      (allowSeq { f with counters := counters } k ts).1.window = f.window ∧
      (allowSeq { f with counters := counters } k ts).1.maxCount = f.maxCount := by
  induction ts with
  | nil =>
    intro c counters hk _
    exact ⟨rfl, ⟨c, hk⟩, rfl, rfl⟩
  | cons t ts ih =>
    intro c counters hk hts
    have ht : ¬ (t - t0 > f.window) := by
      have := hts t (List.mem_cons_self t ts)
      omega
    have hts' : ∀ u ∈ ts, u ≤ t0 + f.window := fun u hu => hts u (List.mem_cons_of_mem t hu)
    by_cases hc : c < f.maxCount
    · have hstep : fixedWindowCounter.allow { f with counters := counters } k t =
          ({ f with counters := Map.set counters k { timestamp := t0, count := c + 1 } }, true) := by
        simp [fixedWindowCounter.allow, hk, ht, hc]
      obtain ⟨h1, h2, h3, h4⟩ := ih (c + 1) (Map.set counters k { timestamp := t0, count := c + 1 })
        (Map.set_same _ _ _) hts'
      simp only [allowSeq, hstep]
      refine ⟨?_, h2, h3, h4⟩
      rw [h1, List.length_cons, List.range_succ_eq_map, List.map_cons, List.map_map]
      congr 1
      · simp [hc]
      · apply List.map_congr_left
        intro i _
        simp only [Function.comp, Nat.succ_eq_add_one, Nat.cast_add, Nat.cast_one]
        congr 1
        apply propext
        constructor <;> intro h <;> omega
    · have hstep : fixedWindowCounter.allow { f with counters := counters } k t =
          ({ f with counters := counters }, false) := by
        simp [fixedWindowCounter.allow, hk, ht, hc]
      obtain ⟨h1, h2, h3, h4⟩ := ih c counters hk hts'
      simp only [allowSeq, hstep]
      refine ⟨?_, h2, h3, h4⟩
      rw [h1, List.length_cons, List.range_succ_eq_map, List.map_cons, List.map_map]
      congr 1
      · simp [hc]
      · apply List.map_congr_left
        intro i _
        simp only [Function.comp, Nat.succ_eq_add_one, Nat.cast_add, Nat.cast_one]
        have e1 : decide (c + (i : Int) < f.maxCount) = false := by
          apply decide_eq_false; omega
        have e2 : decide (c + ((i : Int) + 1) < f.maxCount) = false := by
          apply decide_eq_false; omega
        rw [e1, e2]

/-- C2: a limiter with window `W` and `maxCount = N ≥ 1` that has no entry for
`k`; a first call at `t0` and then calls at the times `ts`, all within
`[t0, t0 + W]`.  The call number `i` (counting from 0) is admitted iff `i < N`:
exactly the first `N` calls are admitted, the `(N+1)`-th and all later ones of
that window are denied.  The next call, at any time `t'` later than `t0 + W`,
is admitted again. -/
theorem fixed_window_bound (W N : Int) (hN : 1 ≤ N) (counters : String → Option counter)
    (k : String) (hk : counters k = none) (t0 : Int) (ts : List Int)
    (hts : ∀ t ∈ ts, t0 ≤ t ∧ t ≤ t0 + W) (t' : Int) (ht' : t0 + W < t') :
    (allowSeq { window := W, maxCount := N, counters := counters } k (t0 :: ts)).2 =
        (List.range (ts.length + 1)).map (fun (i : Nat) => decide ((i : Int) < N)) ∧
    ((allowSeq { window := W, maxCount := N, counters := counters } k (t0 :: ts)).1.allow
        k t').2 = true := by
  have hstep : fixedWindowCounter.allow { window := W, maxCount := N, counters := counters } k t0 =
      ({ window := W, maxCount := N,
         counters := Map.set counters k { timestamp := t0, count := 1 } }, true) := by
    simp [fixedWindowCounter.allow, hk]
  obtain ⟨h1, ⟨c', h2⟩, h3, h4⟩ :=
    allowSeq_open_window { window := W, maxCount := N, counters := counters } k t0 ts 1
      (Map.set counters k { timestamp := t0, count := 1 }) (Map.set_same _ _ _)
      (fun t ht => (hts t ht).2)
  simp only [allowSeq, hstep]
  constructor
  · rw [h1, List.range_succ_eq_map, List.map_cons, List.map_map]
    congr 1
    · simp; omega
    · apply List.map_congr_left
      intro i _
      simp only [Function.comp, Nat.succ_eq_add_one, Nat.cast_add, Nat.cast_one]
      congr 1
      apply propext
      constructor <;> intro h <;> omega
  · have hgt : t' - t0 > W := by omega
    simp only at h3
    simp [fixedWindowCounter.allow, h2, h3, hgt]

/-- Witness of C2, the case of `TestFixedWindowCounterAllow`: `W` = 2 s,
`N` = 2, calls at 0 s, 0.5 s and 1 s, then a call at 2.1 s. -/
theorem fixed_window_bound_witness :
    (allowSeq testLimiter "id" [0, 500000000, 1000000000]).2 = [true, true, false] ∧
    ((allowSeq testLimiter "id" [0, 500000000, 1000000000]).1.allow "id" 2100000000).2 = true :=
  fixed_window_bound 2000000000 2 (by decide) (fun _ => none) "id" rfl 0
    [500000000, 1000000000] (by simp) 2100000000 (by decide)

/-! ### The auth guard -/

theorem writeHeader_written (w : gin.ResponseWriter) (code : Nat) :
    (w.WriteHeader code).written = w.written := by
  unfold gin.ResponseWriter.WriteHeader
  split_ifs <;> rfl

theorem writeHeader_status_fresh (w : gin.ResponseWriter) (code : Nat) (hcode : 0 < code)
    (hw : w.written = false) : (w.WriteHeader code).status = code := by
  unfold gin.ResponseWriter.WriteHeader
  by_cases h : w.status = code
  · simp [h]
  · simp [h, hcode, hw]

theorem writeHeader_status_written (w : gin.ResponseWriter) (code : Nat)
    (hw : w.written = true) : w.WriteHeader code = w := by
  unfold gin.ResponseWriter.WriteHeader
  simp [hw]

theorem writeContentType_status (w : gin.ResponseWriter) :
    (gin.writeContentType w).status = w.status := by
  unfold gin.writeContentType
  split <;> rfl

theorem writeContentType_written (w : gin.ResponseWriter) :
    (gin.writeContentType w).written = w.written := by
  unfold gin.writeContentType
  split <;> rfl

theorem write_written (w : gin.ResponseWriter) (data : String) :
    (w.Write data).written = true := by
  unfold gin.ResponseWriter.Write gin.ResponseWriter.WriteHeaderNow
  split_ifs with h
  · exact h
  · rfl

theorem write_status (w : gin.ResponseWriter) (data : String) :
    (w.Write data).status = w.status := by
  unfold gin.ResponseWriter.Write gin.ResponseWriter.WriteHeaderNow
  split_ifs <;> rfl

theorem json_aborted (c : gin.Context) (code : Nat) (msg : String) :
    (c.JSON code msg).aborted = c.aborted := rfl

theorem json_status (c : gin.Context) (code : Nat) (msg : String)
    (hcode : 0 < code) (hw : c.Writer.written = false) :
    (c.JSON code msg).Writer.status = code ∧ (c.JSON code msg).Writer.written = true := by
  simp only [gin.Context.JSON, gin.Context.Status]
  exact ⟨by rw [write_status, writeContentType_status, writeHeader_status_fresh _ _ hcode hw],
    write_written _ _⟩

theorem abortWithStatusJSON_aborted (c : gin.Context) (code : Nat) (msg : String) :
    (c.AbortWithStatusJSON code msg).aborted = true := rfl

theorem abortWithStatusJSON_status (c : gin.Context) (code : Nat) (msg : String)
    (hcode : 0 < code) (hw : c.Writer.written = false) :
    (c.AbortWithStatusJSON code msg).Writer.status = code ∧
    (c.AbortWithStatusJSON code msg).Writer.written = true :=
  json_status (c.Abort) code msg hcode hw

/-- C3: the guard, for any external verifier (`a.Verifier`) and any unverified
parser.  It admits, that is ends with `c.Next()` leaving the context as it
was, if and only if the token is extracted, the verifier accepts it, it
parses, the role check returns `(true, nil)` or `acceptedRoles` is empty, and
the permission check returns `(true, nil)` or `acceptedPermissions` is empty.
In every other case it calls `AbortWithStatusJSON(401, _)`: the chain is
aborted and, the response being still unwritten, its status is 401.  In
particular a token the verifier rejects is never admitted, whatever it
parses to. -/
theorem guard_admits_iff (parseUnverified : String → Option jwt.Token)
    (a : auth.AuthMiddleware) (acceptedRoles acceptedPermissions : List String)
    (c : gin.Context) :
    ((a.Guard parseUnverified acceptedRoles acceptedPermissions c).2 = gin.Ctl.next ↔
      ∃ rawToken token,
        auth.extractToken c = .ok rawToken ∧
        a.Verifier rawToken = true ∧
        parseUnverified rawToken = some token ∧
        (acceptedRoles = [] ∨ a.roleChecker.check token acceptedRoles = (true, none)) ∧
        (acceptedPermissions = [] ∨
          a.permissionChecker.check token acceptedPermissions = (true, none))) ∧
    ((a.Guard parseUnverified acceptedRoles acceptedPermissions c).2 = gin.Ctl.next →
      (a.Guard parseUnverified acceptedRoles acceptedPermissions c).1 = c) ∧
    ((a.Guard parseUnverified acceptedRoles acceptedPermissions c).2 ≠ gin.Ctl.next →
      (∃ msg, (a.Guard parseUnverified acceptedRoles acceptedPermissions c).1 =
          c.AbortWithStatusJSON http.StatusUnauthorized msg) ∧
      (a.Guard parseUnverified acceptedRoles acceptedPermissions c).1.aborted = true ∧
      (c.Writer.written = false →
        (a.Guard parseUnverified acceptedRoles acceptedPermissions c).1.Writer.status = 401 ∧
        (a.Guard parseUnverified acceptedRoles acceptedPermissions c).1.Writer.written = true)) ∧
    (∀ rawToken, auth.extractToken c = .ok rawToken → a.Verifier rawToken = false →
      (a.Guard parseUnverified acceptedRoles acceptedPermissions c).2 ≠ gin.Ctl.next) := by
  have habort : ∀ msg (r : gin.Context × gin.Ctl),
      r = (c.AbortWithStatusJSON http.StatusUnauthorized msg, gin.Ctl.ret) →
      (r.2 ≠ gin.Ctl.next) ∧
      ((∃ msg, r.1 = c.AbortWithStatusJSON http.StatusUnauthorized msg) ∧
        r.1.aborted = true ∧
        (c.Writer.written = false → r.1.Writer.status = 401 ∧ r.1.Writer.written = true)) := by
    intro msg r hr
    subst hr
    exact ⟨by simp, ⟨msg, rfl⟩, rfl,
      fun hw => abortWithStatusJSON_status c 401 msg (by decide) hw⟩
  unfold auth.AuthMiddleware.Guard
  cases hx : auth.extractToken c with
  | error e =>
    obtain ⟨h1, h2⟩ := habort "missing token" _ rfl
    simp only
    refine ⟨⟨fun h => absurd h h1, ?_⟩, fun h => absurd h h1, fun _ => h2, ?_⟩
    · rintro ⟨rawToken, token, h, _⟩
      cases h
    · intro rawToken h
      cases h
  | ok rawToken =>
    simp only
    cases hv : a.Verifier rawToken with
    | false =>
      obtain ⟨h1, h2⟩ := habort "invalid token" _ rfl
      simp only [if_true]
      refine ⟨⟨fun h => absurd h h1, ?_⟩, fun h => absurd h h1, fun _ => h2, fun _ _ _ => h1⟩
      rintro ⟨rawToken', token, h, hv', _⟩
      cases h
      rw [hv] at hv'
      cases hv'
    | true =>
      simp only [Bool.true_eq_false, if_false]
      cases hp : parseUnverified rawToken with
      | none =>
        obtain ⟨h1, h2⟩ := habort "invalid token" _ rfl
        simp only
        refine ⟨⟨fun h => absurd h h1, ?_⟩, fun h => absurd h h1, fun _ => h2, ?_⟩
        · rintro ⟨rawToken', token, h, _, hp', _⟩
          cases h
          rw [hp] at hp'
          cases hp'
        · intro rawToken' h hv'
          cases h
          rw [hv] at hv'
          cases hv'
      | some token =>
        simp only
        generalize hR : (ite (acceptedRoles.length > 0) _ none : Option String) = R
        have hRiff : R = none ↔
            (acceptedRoles = [] ∨ a.roleChecker.check token acceptedRoles = (true, none)) := by
          rw [← hR]
          cases acceptedRoles with
          | nil => simp
          | cons v vs =>
            rcases hchk : a.roleChecker.check token (v :: vs) with ⟨b, e⟩
            cases e with
            | some err => simp
            | none => cases b <;> simp
        generalize hP : (ite (acceptedPermissions.length > 0) _ none : Option String) = P
        have hPiff : P = none ↔
            (acceptedPermissions = [] ∨
              a.permissionChecker.check token acceptedPermissions = (true, none)) := by
          rw [← hP]
          cases acceptedPermissions with
          | nil => simp
          | cons v vs =>
            rcases hchk : a.permissionChecker.check token (v :: vs) with ⟨b, e⟩
            cases e with
            | some err => simp
            | none => cases b <;> simp
        have hver : ∀ rawToken', (Except.ok rawToken : Except auth.Error String) = .ok rawToken' →
            a.Verifier rawToken' = false → False := by
          intro rawToken' h hv'
          cases h
          rw [hv] at hv'
          cases hv'
        cases R with
        | some msg =>
          obtain ⟨h1, h2⟩ := habort msg _ rfl
          simp only
          refine ⟨⟨fun h => absurd h h1, ?_⟩, fun h => absurd h h1, fun _ => h2,
            fun r h hv' => (hver r h hv').elim⟩
          rintro ⟨rawToken', token', h, _, hp', hr, _⟩
          cases h
          rw [hp] at hp'
          cases hp'
          have := hRiff.mpr hr
          cases this
        | none =>
          simp only
          cases P with
          | some msg =>
            obtain ⟨h1, h2⟩ := habort msg _ rfl
            simp only
            refine ⟨⟨fun h => absurd h h1, ?_⟩, fun h => absurd h h1, fun _ => h2,
              fun r h hv' => (hver r h hv').elim⟩
            rintro ⟨rawToken', token', h, _, hp', _, hq⟩
            cases h
            rw [hp] at hp'
            cases hp'
            have := hPiff.mpr hq
            cases this
          | none =>
            simp only
            refine ⟨⟨fun _ => ⟨rawToken, token, rfl, hv, hp, hRiff.mp rfl, hPiff.mp rfl⟩,
              fun _ => trivial⟩, fun _ => trivial, fun h => absurd rfl h,
              fun r h hv' => (hver r h hv').elim⟩

/-- Witness of C3: a request with a token the verifier accepts and the role
`user` is admitted for the accepted roles `["user", "manager"]`; with a token
the verifier rejects, the same claims are denied with status 401. -/
theorem guard_admits_iff_witness :
    (testAuth.Guard testParse ["user", "manager"] [] (bearerContext "Bearer good")).2 =
      gin.Ctl.next ∧
    (testAuth.Guard testParse ["user", "manager"] [] (bearerContext "Bearer bad")).2 ≠
      gin.Ctl.next ∧
    (testAuth.Guard testParse ["user", "manager"] [] (bearerContext "Bearer bad")).1.Writer.status =
      401 :=
  ⟨(guard_admits_iff testParse testAuth ["user", "manager"] []
      (bearerContext "Bearer good")).1.mpr
      ⟨"good", { Claims := some [("role", jwt.Value.string "user")] }, rfl, by decide,
        rfl, Or.inr (by decide), Or.inl rfl⟩,
    (guard_admits_iff testParse testAuth ["user", "manager"] []
      (bearerContext "Bearer bad")).2.2.2 "bad" rfl (by decide),
    by decide⟩

/-! ### The handler chain of an endpoint -/

open service in
/-- On an endpoint whose pointers are set where `buildMiddlewaresChain` reads
them, the chain is built, and its stages are those that apply, in the order
auth, body size, header size, rate limit. -/
theorem buildMiddlewaresChain_stages (s : Service) (endpoint : EndpointConfiguration)
    (hauth : s.authEnabled = true → endpoint.Auth ≠ none)
    (hrl : ∀ rl, endpoint.RateLimit = some rl → rl.Enabled = true →
      rl.LimitBy ≠ none ∧ rl.Window ≠ none ∧ rl.MaxCount ≠ none) :
    ∃ middlewares, s.buildMiddlewaresChain endpoint = some middlewares ∧
      middlewares.map HandlerFunc.stage =
        [Stage.auth, Stage.bodySize, Stage.headerSize, Stage.rateLimit].filter
          (specStageApplies s endpoint) := by
  obtain ⟨method, path, au, rl, mb, mh⟩ := endpoint
  have hauth' : s.authEnabled = true → au ≠ none := hauth
  have hrl' : ∀ r, rl = some r → r.Enabled = true →
      r.LimitBy ≠ none ∧ r.Window ≠ none ∧ r.MaxCount ≠ none := hrl
  clear hauth hrl
  cases hs : s.authEnabled <;> rcases au with _ | ⟨⟨_ | _, roles, perms⟩⟩ <;>
    rcases mb with _ | mb <;> rcases mh with _ | mh <;>
    rcases rl with _ | ⟨⟨_ | _, _ | limitBy, _ | window, _ | maxCount⟩⟩ <;>
    first
    | (exfalso; exact hauth' hs rfl)
    | (exfalso; have := hrl' _ rfl rfl; simp at this; done)
    | simp [Service.buildMiddlewaresChain, specStageApplies, HandlerFunc.stage, hs]

open service in
theorem inheritAuth_Auth (e : EndpointConfiguration) (conf : Config) :
    (e.inheritAuth conf).Auth =
      if e.Auth = none ∧ conf.Middlewares.Auth.Enabled = true then
        some { Enabled := true
               AuthorizedRoles := conf.Middlewares.Auth.AuthMiddlewareConfig.AuthorizedRoles.Values
               RequiredPermission :=
                 conf.Middlewares.Auth.AuthMiddlewareConfig.RequiredPermissions.Values }
      else e.Auth := by
  unfold EndpointConfiguration.inheritAuth
  split_ifs <;> rfl

open service in
theorem inheritAuth_RateLimit (e : EndpointConfiguration) (conf : Config) :
    (e.inheritAuth conf).RateLimit = e.RateLimit := by
  unfold EndpointConfiguration.inheritAuth
  split_ifs <;> rfl

open service in
theorem backfill_fields (rl : EndpointRateLimit) (conf : Config) :
    (rl.backfill conf).Enabled = rl.Enabled ∧
    (rl.backfill conf).LimitBy =
      some (rl.LimitBy.getD conf.Middlewares.RateLimit.RateLimiterConfig.LimitBy) ∧
    (rl.backfill conf).Window =
      some (rl.Window.getD conf.Middlewares.RateLimit.RateLimiterConfig.Window) ∧
    (rl.backfill conf).MaxCount =
      some (rl.MaxCount.getD conf.Middlewares.RateLimit.RateLimiterConfig.MaxCount) := by
  obtain ⟨en, _ | l, _ | w, _ | m⟩ := rl <;> simp [EndpointRateLimit.backfill]

open service in
/-- After the fourth statement of the merge, an enabled rate-limit block has
its three fields set. -/
theorem backfillRateLimit_set (e : EndpointConfiguration) (conf : Config) (rl : EndpointRateLimit)
    (h : (e.backfillRateLimit conf).RateLimit = some rl) (hen : rl.Enabled = true) :
    rl.LimitBy ≠ none ∧ rl.Window ≠ none ∧ rl.MaxCount ≠ none := by
  unfold EndpointConfiguration.backfillRateLimit at h
  cases hr : e.RateLimit with
  | none =>
    rw [hr] at h
    simp only [hr] at h
    cases h
  | some r =>
    rw [hr] at h
    by_cases hre : r.Enabled = true
    · simp only [hre, if_true] at h
      cases h
      obtain ⟨_, h1, h2, h3⟩ := backfill_fields r conf
      rw [h1, h2, h3]
      simp
    · have hre' : r.Enabled = false := by simpa using hre
      simp only [hre', Bool.false_eq_true, if_false] at h
      rw [hr] at h
      cases h
      exact absurd hen hre

open service in
/-- After the merge, the auth block is present whenever the service's auth is
enabled, and an enabled rate-limit block has its three fields set. -/
theorem merge_pointers_set (endpoint : EndpointConfiguration) (conf : Config) :
    (conf.Middlewares.Auth.Enabled = true →
      (endpoint.MergeFromServiceConfiguration conf).Auth ≠ none) ∧
    (∀ rl, (endpoint.MergeFromServiceConfiguration conf).RateLimit = some rl →
      rl.Enabled = true → rl.LimitBy ≠ none ∧ rl.Window ≠ none ∧ rl.MaxCount ≠ none) := by
  unfold EndpointConfiguration.MergeFromServiceConfiguration
  constructor
  · intro hen
    rw [inheritAuth_Auth]
    split_ifs with h
    · simp
    · intro hnone
      exact h ⟨hnone, hen⟩
  · intro rl hrl hen
    rw [inheritAuth_RateLimit] at hrl
    exact backfillRateLimit_set _ conf rl hrl hen

open service in
theorem New_fields (newProvider : String → Option (String → String → Bool)) (conf : Config)
    (s : Service) (hs : New newProvider conf = some s) :
    s.authEnabled = conf.Middlewares.Auth.Enabled ∧
    s.gatewayPathPrefix = conf.PathPrefix ∧ s.baseURL = conf.BaseURL ∧
    s.endpoints = conf.Endpoints.map (fun endpoint =>
      endpoint.MergeFromServiceConfiguration conf) := by
  unfold New at hs
  simp only at hs
  split_ifs at hs with h
  · split at hs
    · cases hs
    · cases hs
      exact ⟨rfl, rfl, rfl, rfl⟩
  · cases hs
    exact ⟨rfl, rfl, rfl, rfl⟩

open service in
/-- The loop of `AttachEndpoints` on endpoints whose chains are built: it hands
to `Handle` one route for each endpoint, and registers them all if `Handle`
takes each in its turn; otherwise it panics. -/
theorem attachLoop_routes (accepts : List Route → Route → Bool) (s : Service)
    (P : EndpointConfiguration → List HandlerFunc → Prop)
    (endpoints : List EndpointConfiguration) :
    (∀ endpoint ∈ endpoints, ∃ middlewares,
      s.buildMiddlewaresChain endpoint = some middlewares ∧ P endpoint middlewares) →
    ∀ router, ∃ added,
      List.Forall₂ (fun endpoint route =>
        route.Method = endpoint.Method ∧
        route.Path = s.gatewayPathPrefix ++ endpoint.Path ∧
        ∃ middlewares, s.buildMiddlewaresChain endpoint = some middlewares ∧
          route.Handlers = middlewares ++ [HandlerFunc.Forward s.gatewayPathPrefix s.baseURL] ∧
          P endpoint middlewares)
        endpoints added ∧
      s.attachLoop accepts endpoints router =
        if acceptsAll accepts router added = true then some (router ++ added) else none := by
  induction endpoints with
  | nil =>
    intro _ router
    exact ⟨[], List.Forall₂.nil, by simp [Service.attachLoop, acceptsAll]⟩
  | cons endpoint rest ih =>
    intro h router
    obtain ⟨middlewares, hm, hP⟩ := h endpoint (List.mem_cons_self _ _)
    obtain ⟨added, hall, hadd⟩ := ih (fun e he => h e (List.mem_cons_of_mem _ he))
      (router ++ [Route.mk endpoint.Method (s.gatewayPathPrefix ++ endpoint.Path)
        (middlewares ++ [HandlerFunc.Forward s.gatewayPathPrefix s.baseURL])])
    refine ⟨Route.mk endpoint.Method (s.gatewayPathPrefix ++ endpoint.Path)
        (middlewares ++ [HandlerFunc.Forward s.gatewayPathPrefix s.baseURL]) :: added,
      List.Forall₂.cons ⟨rfl, rfl, middlewares, hm, rfl, hP⟩ hall, ?_⟩
    simp only [Service.attachLoop, hm, List.nil_append, acceptsAll]
    by_cases hacc : accepts router (Route.mk endpoint.Method (s.gatewayPathPrefix ++ endpoint.Path)
        (middlewares ++ [HandlerFunc.Forward s.gatewayPathPrefix s.baseURL])) = true
    · simp only [hacc, if_true, Bool.true_and]
      rw [hadd]
      simp [List.append_assoc]
    · simp [hacc]

open service in
/-- C4: a service whose endpoints are resolved, that is merged with a service
configuration that enables auth exactly when the service does (as in every
service built by `New`).  `AttachEndpoints` hands to `router.Handle` one route
for each endpoint, with the endpoint's method and the path
`gatewayPathPrefix + path`.  The handlers of the route are the chain of
`buildMiddlewaresChain` followed by the Forwarder as last element, and the
stages of the chain are exactly those of auth, body size, header size, rate
limit that apply to the endpoint, in that order.  So a chain to which all four
apply has 4 stages with auth first, and one to which none applies has 0.
These routes are what `AttachEndpoints` registers, after those of the router,
when `Handle` takes each of them in its turn; when `Handle` refuses one,
`AttachEndpoints` panics. -/
theorem attach_endpoints_chain (accepts : List Route → Route → Bool) (conf : Config)
    (s : Service) (hauth : s.authEnabled = conf.Middlewares.Auth.Enabled)
    (hends : ∀ endpoint ∈ s.endpoints, ∃ declared : EndpointConfiguration,
      endpoint = declared.MergeFromServiceConfiguration conf)
    (router : List Route) :
    ∃ added,
      List.Forall₂ (fun endpoint route =>
        route.Method = endpoint.Method ∧
        route.Path = s.gatewayPathPrefix ++ endpoint.Path ∧
        ∃ middlewares, s.buildMiddlewaresChain endpoint = some middlewares ∧
          route.Handlers = middlewares ++ [HandlerFunc.Forward s.gatewayPathPrefix s.baseURL] ∧
          route.Handlers.getLast? = some (HandlerFunc.Forward s.gatewayPathPrefix s.baseURL) ∧
          middlewares.map HandlerFunc.stage =
            [Stage.auth, Stage.bodySize, Stage.headerSize, Stage.rateLimit].filter
              (specStageApplies s endpoint) ∧
          ((∀ stage, specStageApplies s endpoint stage = true) →
            middlewares.length = 4 ∧
            (middlewares.map HandlerFunc.stage).head? = some Stage.auth) ∧
          ((∀ stage, stage ≠ Stage.forwarder → specStageApplies s endpoint stage = false) →
            middlewares.length = 0))
        s.endpoints added ∧
      s.AttachEndpoints accepts router =
        if acceptsAll accepts router added = true then some (router ++ added) else none := by
  have hres : ∀ endpoint ∈ s.endpoints, ∃ middlewares,
      s.buildMiddlewaresChain endpoint = some middlewares ∧
      middlewares.map HandlerFunc.stage =
        [Stage.auth, Stage.bodySize, Stage.headerSize, Stage.rateLimit].filter
          (specStageApplies s endpoint) := by
    intro endpoint hmem
    obtain ⟨e, rfl⟩ := hends endpoint hmem
    obtain ⟨h1, h2⟩ := merge_pointers_set e conf
    exact buildMiddlewaresChain_stages s _ (fun h => h1 (hauth ▸ h)) h2
  obtain ⟨added, hall, hadd⟩ := attachLoop_routes accepts s
    (fun endpoint middlewares => middlewares.map HandlerFunc.stage =
      [Stage.auth, Stage.bodySize, Stage.headerSize, Stage.rateLimit].filter
        (specStageApplies s endpoint)) s.endpoints hres router
  refine ⟨added, hall.imp ?_, hadd⟩
  rintro endpoint route ⟨h1, h2, middlewares, hm, hh, hst⟩
  refine ⟨h1, h2, middlewares, hm, hh, by rw [hh]; simp, hst, ?_, ?_⟩
  · intro hall4
    have hlen := congrArg List.length hst
    simp only [List.length_map] at hlen
    rw [hst]
    simp [hall4] at hlen ⊢
    exact hlen
  · intro hnone
    have hlen := congrArg List.length hst
    simp only [List.length_map] at hlen
    simpa [hnone] using hlen

open service in
/-- Witness of C4, the test "All middlewares activated": `New` builds
`activatedService`, whose endpoint is the merged one, and on a router that
refuses duplicates the one route registered is `GET /api/test` with the four
stages in order and the Forwarder last.  With the endpoint listed twice the
configuration is accepted by `New` as well, but the second `Handle` is refused
and `AttachEndpoints` panics. -/
theorem attach_endpoints_chain_witness :
    New testProvider allActivated = some activatedService ∧
    (∃ added, added.length = 1 ∧
      activatedService.AttachEndpoints refuseDuplicates [] =
        if acceptsAll refuseDuplicates [] added = true then some ([] ++ added) else none) ∧
    routeStages (activatedService.AttachEndpoints refuseDuplicates []) =
      some [("GET", "/api/test",
        [Stage.auth, Stage.bodySize, Stage.headerSize, Stage.rateLimit, Stage.forwarder])] ∧
    New testProvider declaredTwice = some twiceService ∧
    routeStages (twiceService.AttachEndpoints refuseDuplicates []) = none := by
  refine ⟨rfl, ?_, by decide, rfl, by decide⟩
  obtain ⟨added, hall, hadd⟩ := attach_endpoints_chain refuseDuplicates allActivated
    activatedService rfl
    (fun endpoint hmem => ⟨{ Method := "GET", Path := "/test" }, by
      have : endpoint ∈ [EndpointConfiguration.MergeFromServiceConfiguration
          { Method := "GET", Path := "/test" } allActivated] := hmem
      exact List.mem_singleton.mp this⟩) []
  exact ⟨added, hall.length_eq.symm, hadd⟩

/-! ### Rejection by the rate limiter -/

/-- The rate-limit stage never aborts the context: whatever it answers, the
context is aborted after it only if it was before. -/
theorem allow_never_aborts (r : RateLimiter) (now : Int) (c : gin.Context) :
    (r.Allow now c).2.1.aborted = c.aborted := by
  unfold RateLimiter.Allow
  split
  · rfl
  · simp only
    split_ifs <;> rfl

/-- After the rate-limit stage the dispatch loop always goes on with the rest
of the chain, whether the stage admitted the request or answered 429 or 400. -/
theorem allow_then_rest (rest : List Handler) (w : World) (h : w.c.aborted = false) :
    runChain (allowHandler :: rest) w = runChain rest (allowHandler w).1 := by
  have hab : (allowHandler w).1.c.aborted = false := by
    simp only [allowHandler]
    rw [allow_never_aborts]
    exact h
  simp [runChain, hab]

/-- C5, the code at the failing inputs.  A third request within the window is
answered 429 by the rate-limit stage, and a request whose key cannot be
extracted is answered 400; in both cases the stage returns without aborting,
so the dispatch loop goes on to the Forwarder, which sends the request
upstream. -/
theorem rate_limit_rejection_runs_forwarder :
    ((allowHandler (arrive twoServed testRequest 1500000000)).1.c.Writer.status = 429 ∧
      (allowHandler (arrive twoServed testRequest 1500000000)).1.c.aborted = false ∧
      (serve limitedChain twoServed testRequest 1500000000).upstream.length =
        twoServed.upstream.length + 1) ∧
    ((allowHandler (arrive (freshWorld "sub_claim") testRequest 0)).1.c.Writer.status = 400 ∧
      (allowHandler (arrive (freshWorld "sub_claim") testRequest 0)).1.c.aborted = false ∧
      (serve limitedChain (freshWorld "sub_claim") testRequest 0).upstream.map
        (fun req => req.URL) = ["http://up/test"]) := by
  refine ⟨⟨by decide, by decide, by decide⟩, ⟨by decide, by decide, by decide⟩⟩

/-! ### The forwarder -/

theorem hasPrefix_eq_append (s p : String) (h : strings.HasPrefix s p = true) :
    s = p ++ strings.TrimPrefix s p := by
  unfold strings.TrimPrefix
  rw [if_pos h]
  unfold strings.HasPrefix at h
  rw [List.isPrefixOf_iff_prefix] at h
  obtain ⟨t, ht⟩ := h
  apply String.ext
  rw [String.data_append, ← ht]
  simp

theorem abortWithStatus_aborted (c : gin.Context) (code : Nat) :
    (c.AbortWithStatus code).aborted = true := rfl

theorem abortWithStatus_status (c : gin.Context) (code : Nat) (hcode : 0 < code)
    (hw : c.Writer.written = false) :
    (c.AbortWithStatus code).Writer.status = code ∧
    (c.AbortWithStatus code).Writer.written = true := by
  simp only [gin.Context.AbortWithStatus, gin.Context.Abort, gin.Context.Status,
    gin.ResponseWriter.WriteHeaderNow, writeHeader_written, hw]
  exact ⟨writeHeader_status_fresh _ _ hcode hw, by simp⟩

/-- C6: the target URL of `Forward`.  If the path does not start with
`sourcePathPrefix`, the handler aborts with `AbortWithStatus(502)` (status 502
on a response still unwritten) and hands no request to the upstream client.
Otherwise the path is `sourcePathPrefix ++ rest` and the URL of the upstream
request is `targetBaseURL ++ rest`, followed by `"?"` and the raw query when
the raw query is not empty: that URL is the one given to `http.NewRequest`,
and when the request is built it is the URL of the one request handed to the
client. -/
theorem forward_target_url (newRequest : String → String → Bool)
    (client : http.UpstreamRequest → Option http.Response) (canon : String → String)
    (sourcePathPrefix targetBaseURL : String) (c : gin.Context) :
    (strings.HasPrefix c.Request.Path sourcePathPrefix = false →
      proxy.Forward newRequest client canon sourcePathPrefix targetBaseURL c =
        (c.AbortWithStatus 502, none, gin.Ctl.ret) ∧
      (c.AbortWithStatus 502).aborted = true ∧
      (c.Writer.written = false → (c.AbortWithStatus 502).Writer.status = 502)) ∧
    (strings.HasPrefix c.Request.Path sourcePathPrefix = true →
      ∃ rest, c.Request.Path = sourcePathPrefix ++ rest ∧
        (newRequest c.Request.Method
            (targetBaseURL ++ rest ++
              (if c.Request.RawQuery = "" then "" else "?" ++ c.Request.RawQuery)) = false →
          proxy.Forward newRequest client canon sourcePathPrefix targetBaseURL c =
            (c.AbortWithStatus 502, none, gin.Ctl.ret)) ∧
        (newRequest c.Request.Method
            (targetBaseURL ++ rest ++
              (if c.Request.RawQuery = "" then "" else "?" ++ c.Request.RawQuery)) = true →
          ∃ req, (proxy.Forward newRequest client canon sourcePathPrefix targetBaseURL c).2.1 =
              some req ∧
            req.URL = targetBaseURL ++ rest ++
              (if c.Request.RawQuery = "" then "" else "?" ++ c.Request.RawQuery) ∧
            req.Method = c.Request.Method ∧ req.Header = c.Request.Header ∧
            req.Body = c.Request.Body)) := by
  constructor
  · intro h
    refine ⟨?_, rfl, fun hw => (abortWithStatus_status c 502 (by decide) hw).1⟩
    simp [proxy.Forward, proxy.buildTargetURL, h, http.StatusBadGateway]
  · intro h
    have hb : proxy.buildTargetURL c sourcePathPrefix targetBaseURL =
        .ok (targetBaseURL ++ strings.TrimPrefix c.Request.Path sourcePathPrefix) := by
      simp [proxy.buildTargetURL, h]
    have hurl : (if c.Request.RawQuery ≠ "" then
          targetBaseURL ++ strings.TrimPrefix c.Request.Path sourcePathPrefix ++ "?" ++
            c.Request.RawQuery
        else targetBaseURL ++ strings.TrimPrefix c.Request.Path sourcePathPrefix) =
        targetBaseURL ++ strings.TrimPrefix c.Request.Path sourcePathPrefix ++
          (if c.Request.RawQuery = "" then "" else "?" ++ c.Request.RawQuery) := by
      by_cases hq : c.Request.RawQuery = ""
      · simp [hq]
      · simp [hq, String.append_assoc]
    refine ⟨strings.TrimPrefix c.Request.Path sourcePathPrefix,
      hasPrefix_eq_append _ _ h, ?_, ?_⟩
    · intro hn
      unfold proxy.Forward
      simp only [hb, hurl, hn, if_true]
      rfl
    · intro hn
      unfold proxy.Forward
      simp only [hb, hurl, hn, Bool.true_eq_false, if_false]
      split
      · exact ⟨_, rfl, rfl, rfl, rfl, rfl⟩
      · split_ifs <;> exact ⟨_, rfl, rfl, rfl, rfl, rfl⟩

/-- Witness of C6, the cases of `TestForward`: under the prefix `/service`,
`/service/test?q=yes` goes to `http://up/test?q=yes`; under the prefix
`/invalid` the request is rejected and nothing is sent upstream. -/
theorem forward_target_url_witness :
    (∃ req, (proxy.Forward (fun _ _ => true) upstreamOK id "/service" "http://up"
        queryContext).2.1 = some req ∧ req.URL = "http://up/test?q=yes") ∧
    proxy.Forward (fun _ _ => true) upstreamOK id "/invalid" "http://up" queryContext =
      (queryContext.AbortWithStatus 502, none, gin.Ctl.ret) := by
  constructor
  · obtain ⟨rest, hrest, _, hok⟩ :=
      (forward_target_url (fun _ _ => true) upstreamOK id "/service" "http://up"
        queryContext).2 (by decide)
    obtain ⟨req, hreq, hurl, _⟩ := hok rfl
    refine ⟨req, hreq, ?_⟩
    have hdata : rest = "/test" := by
      have h := congrArg String.data hrest
      rw [String.data_append] at h
      apply String.ext
      exact (@List.append_cancel_left _ "/service".data _ _ h).symm
    rw [hurl, hdata]
    decide
  · exact ((forward_target_url (fun _ _ => true) upstreamOK id "/invalid" "http://up"
      queryContext).1 (by decide)).1

/-- C7, the code at the failing input: the upstream answers 404 with the body
`not found`.  `Forward` copies the body first, which sends the header with the
status the writer had, 200; the later `c.Status(404)` comes too late, and the
response relayed to the caller carries 200 with the upstream's body. -/
theorem forward_status_after_body :
    (proxy.Forward (fun _ _ => true) upstreamNotFound id "/service" "http://up"
      queryContext).1.Writer.status = 200 ∧
    (proxy.Forward (fun _ _ => true) upstreamNotFound id "/service" "http://up"
      queryContext).1.Writer.body = ["not found"] ∧
    (upstreamNotFound
      { Method := "GET", URL := "http://up/test?q=yes", Header := [], Body := "",
        MaxBytes := none }).map (fun res => res.StatusCode) = some 404 := by
  refine ⟨by decide, by decide, by decide⟩

/-- C8, the code at the failing input: an upstream response with two values
under `Set-Cookie`.  Each value is copied with `c.Header`, which replaces the
values of the key, so the outgoing response keeps the last value only,
whatever the canonicalisation of header keys is. -/
theorem copy_response_headers_keeps_last (canon : String → String) :
    (proxy.copyResponseHeaders canon twoCookies {}).Writer.header.values (canon "Set-Cookie") =
      some ["b=2"] ∧
    twoCookies.Header.values "Set-Cookie" = some ["a=1", "b=2"] := by
  constructor
  · simp [proxy.copyResponseHeaders, twoCookies, gin.Context.Header, http.Header.Set,
      http.Header.Del, http.Header.values]
  · decide

/-! ### The claim checker -/

theorem splitChars_no_sep (sep : Char) (l : List Char) (h : sep ∉ l) :
    strings.splitChars sep l = [l] := by
  induction l with
  | nil => rfl
  | cons c cs ih =>
    have hc : c ≠ sep := fun e => h (e ▸ List.mem_cons_self _ _)
    have hcs : sep ∉ cs := fun e => h (List.mem_cons_of_mem _ e)
    simp [strings.splitChars, hc, ih hcs]

theorem splitChars_append (sep : Char) (l r : List Char) (h : sep ∉ l) :
    strings.splitChars sep (l ++ sep :: r) = l :: strings.splitChars sep r := by
  induction l with
  | nil => simp [strings.splitChars]
  | cons c cs ih =>
    have hc : c ≠ sep := fun e => h (e ▸ List.mem_cons_self _ _)
    have hcs : sep ∉ cs := fun e => h (List.mem_cons_of_mem _ e)
    simp [strings.splitChars, hc, ih hcs]

theorem split_joinDots (segs : List String) (hne : segs ≠ [])
    (hseg : ∀ seg ∈ segs, '.' ∉ seg.data) :
    strings.Split (joinDots segs) '.' = segs := by
  induction segs with
  | nil => exact absurd rfl hne
  | cons seg rest ih =>
    cases rest with
    | nil =>
      simp [joinDots, strings.Split, splitChars_no_sep _ _ (hseg seg (List.mem_cons_self _ _))]
    | cons seg2 rest2 =>
      have h1 := hseg seg (List.mem_cons_self _ _)
      have ih' := ih (by simp) (fun x hx => hseg x (List.mem_cons_of_mem _ hx))
      unfold strings.Split at ih' ⊢
      have hdata : (joinDots (seg :: seg2 :: rest2)).data =
          seg.data ++ '.' :: (joinDots (seg2 :: rest2)).data := by
        simp [joinDots, String.data_append]
      rw [hdata, splitChars_append _ _ _ h1, List.map_cons, ih']

/-- The loop of `findClaim` on a prefix of segments that all resolve to nested
mappings: it descends to the mapping reached and goes on from there. -/
theorem findClaimLoop_walk (n : Nat) (pre : List String) :
    ∀ (i : Nat) (rest : List String) (claims m : jwt.MapClaims),
      rest ≠ [] → i + (pre ++ rest).length = n → walk pre claims = some m →
      auth.findClaimLoop n i (pre ++ rest) claims =
        auth.findClaimLoop n (i + pre.length) rest m := by
  induction pre with
  | nil =>
    intro i rest claims m _ _ hw
    simp only [walk, Option.some.injEq] at hw
    subst hw
    simp
  | cons p pre ih =>
    intro i rest claims m hrest hlen hw
    simp only [walk] at hw
    cases hg : jwt.MapClaims.get claims p with
    | none => simp [hg] at hw
    | some v =>
      rw [hg] at hw
      cases v with
      | object entries =>
        simp only at hw
        have hlen' : (i + 1) + (pre ++ rest).length = n := by
          simp only [List.cons_append, List.length_cons] at hlen
          omega
        have hnotlast : ¬ ((i : Int) = (n : Int) - 1) := by
          have : 0 < rest.length := List.length_pos.mpr hrest
          simp only [List.cons_append, List.length_cons, List.length_append] at hlen
          omega
        simp only [List.cons_append, auth.findClaimLoop, hg, hnotlast, if_false, List.append_eq]
        rw [ih (i + 1) rest entries m hrest hlen' hw]
        congr 1
        simp only [List.length_cons]
        omega
      | null => simp at hw
      | bool b => simp at hw
      | number k => simp at hw
      | string str => simp at hw
      | array xs => simp at hw

/-- C10: the failure classification of `findClaim`.  Let the segments of the
key be `pre ++ seg :: post`, where the segments of `pre` resolve, one after
the other, to nested mappings, the last of which is `m`.  If `seg` is absent
from `m`, the result is `ErrTokenKeyNotFound`; if `seg` is present in `m`,
further segments remain and its value is not a nested mapping, the result is
`ErrInvalidClaim`; if `seg` is the last segment and is present, its value is
returned without error. -/
theorem findClaim_classification (key : String) (claims m : jwt.MapClaims)
    (pre : List String) (seg : String) (post : List String)
    (hparts : strings.Split key '.' = pre ++ seg :: post)
    (hwalk : walk pre claims = some m) :
    (m.get seg = none →
      auth.findClaim key { Claims := some claims } = .error auth.Error.ErrTokenKeyNotFound) ∧
    (∀ v, m.get seg = some v → post ≠ [] → v.isObject = false →
      auth.findClaim key { Claims := some claims } = .error auth.Error.ErrInvalidClaim) ∧
    (∀ v, m.get seg = some v → post = [] →
      auth.findClaim key { Claims := some claims } = .ok v) := by
  have hloop : auth.findClaim key { Claims := some claims } =
      auth.findClaimLoop (pre ++ seg :: post).length (0 + pre.length) (seg :: post) m := by
    unfold auth.findClaim
    simp only [hparts]
    exact findClaimLoop_walk _ pre 0 (seg :: post) claims m (by simp) (by simp) hwalk
  rw [hloop]
  refine ⟨?_, ?_, ?_⟩
  · intro hnone
    simp [auth.findClaimLoop, hnone]
  · intro v hv hpost hobj
    have hnotlast : ¬ (((0 + pre.length : Nat) : Int) =
        (((pre ++ seg :: post).length : Nat) : Int) - 1) := by
      have : 0 < post.length := List.length_pos.mpr hpost
      simp only [List.length_append, List.length_cons]
      omega
    simp only [auth.findClaimLoop, hv, hnotlast, if_false]
    cases v <;> simp_all [jwt.Value.isObject]
  · intro v hv hpost
    subst hpost
    have hlast : (((0 + pre.length : Nat) : Int) =
        (((pre ++ [seg]).length : Nat) : Int) - 1) := by
      simp only [List.length_append, List.length_cons, List.length_nil]
      omega
    simp only [auth.findClaimLoop, hv, hlast, if_true]

/-- Witness of C10 on `{"access": {"role": "user"}}`: the key `access.role`
resolves to `"user"`. -/
theorem findClaim_classification_witness :
    auth.findClaim "access.role" nestedToken = .ok (jwt.Value.string "user") :=
  (findClaim_classification "access.role"
    [("access", jwt.Value.object [("role", jwt.Value.string "user")])]
    [("role", jwt.Value.string "user")] ["access"] "role" [] (by decide) (by rfl)).2.2
    (jwt.Value.string "user") (by rfl) rfl

/-- Every key and claims mapping falls under one of the three cases of the
classification of `findClaim`. -/
theorem findClaim_cases (key : String) (claims : jwt.MapClaims) :
    ∃ pre seg post m, strings.Split key '.' = pre ++ seg :: post ∧
      walk pre claims = some m ∧
      (jwt.MapClaims.get m seg = none ∨
        (∃ v, jwt.MapClaims.get m seg = some v ∧ post ≠ [] ∧ v.isObject = false) ∨
        (∃ v, jwt.MapClaims.get m seg = some v ∧ post = [])) := by
  have hgen : ∀ (parts : List String), parts ≠ [] → ∀ claims : jwt.MapClaims,
      ∃ pre seg post m, parts = pre ++ seg :: post ∧ walk pre claims = some m ∧
        (jwt.MapClaims.get m seg = none ∨
          (∃ v, jwt.MapClaims.get m seg = some v ∧ post ≠ [] ∧ v.isObject = false) ∨
          (∃ v, jwt.MapClaims.get m seg = some v ∧ post = [])) := by
    intro parts
    induction parts with
    | nil => intro h; exact absurd rfl h
    | cons p ps ih =>
      intro _ claims
      cases hg : jwt.MapClaims.get claims p with
      | none => exact ⟨[], p, ps, claims, rfl, rfl, Or.inl hg⟩
      | some v =>
        by_cases hps : ps = []
        · exact ⟨[], p, ps, claims, rfl, rfl, Or.inr (Or.inr ⟨v, hg, hps⟩)⟩
        · cases hv : v.isObject with
          | false => exact ⟨[], p, ps, claims, rfl, rfl, Or.inr (Or.inl ⟨v, hg, hps, hv⟩)⟩
          | true =>
            cases v with
            | object entries =>
              obtain ⟨pre, seg, post, m, h1, h2, h3⟩ := ih hps entries
              refine ⟨p :: pre, seg, post, m, by rw [h1]; rfl, ?_, h3⟩
              simp only [walk, hg]
              exact h2
            | null => simp [jwt.Value.isObject] at hv
            | bool b => simp [jwt.Value.isObject] at hv
            | number k => simp [jwt.Value.isObject] at hv
            | string str => simp [jwt.Value.isObject] at hv
            | array xs => simp [jwt.Value.isObject] at hv
  apply hgen
  unfold strings.Split
  cases hd : key.data with
  | nil => simp [strings.splitChars]
  | cons c cs =>
    simp only [strings.splitChars]
    split_ifs
    · simp
    · split <;> simp

theorem findClaimLoop_nest (value : jwt.Value) (n : Nat) (segs : List String) :
    ∀ i : Nat, segs ≠ [] → i + segs.length = n →
      auth.findClaimLoop n i segs (nest segs value) = .ok value := by
  induction segs with
  | nil => intro i h; exact absurd rfl h
  | cons seg rest ih =>
    intro i _ hlen
    cases rest with
    | nil =>
      have hlast : (i : Int) = (n : Int) - 1 := by
        simp only [List.length_cons, List.length_nil] at hlen
        omega
      simp [auth.findClaimLoop, nest, jwt.MapClaims.get, List.lookup, hlast]
    | cons seg2 rest2 =>
      have hnotlast : ¬ ((i : Int) = (n : Int) - 1) := by
        simp only [List.length_cons] at hlen
        omega
      have hrec := ih (i + 1) (by simp) (by simp only [List.length_cons] at hlen ⊢; omega)
      simp [auth.findClaimLoop, nest, jwt.MapClaims.get, List.lookup, hnotlast]
      simpa [nest] using hrec

/-- C9: the round trip of the claim checker.  For a dotted path of one or more
non-empty segments (segments hold no dot) and a string `v`, on the claims
built by setting the path to `v` through nested mappings, the checker of type
`"string"` for that path returns `(true, nil)` for the accepted values `[v]`
and `(false, nil)` for `[w]` when `w` differs from `v`. -/
theorem claim_checker_round_trip (segs : List String) (hne : segs ≠ [])
    (hseg : ∀ seg ∈ segs, seg ≠ "" ∧ '.' ∉ seg.data) (v w : String) (hw : w ≠ v) :
    auth.claimChecker.check { tokenKey := joinDots segs, claimType := "string" }
        { Claims := some (nest segs (jwt.Value.string v)) } [v] = (true, none) ∧
    auth.claimChecker.check { tokenKey := joinDots segs, claimType := "string" }
        { Claims := some (nest segs (jwt.Value.string v)) } [w] = (false, none) := by
  have hfind : auth.findClaim (joinDots segs) { Claims := some (nest segs (jwt.Value.string v)) } =
      .ok (jwt.Value.string v) := by
    unfold auth.findClaim
    simp only [split_joinDots segs hne (fun seg h => (hseg seg h).2)]
    exact findClaimLoop_nest _ _ segs 0 hne (by simp)
  constructor
  · simp [auth.claimChecker.check, hfind]
  · simp [auth.claimChecker.check, hfind]
    exact fun h => hw h.symm

/-- Witness of C9, the nested case of the tests: the path `access.role` set to
`"user"` is accepted for `["user"]` and not for `["manager"]`. -/
theorem claim_checker_round_trip_witness :
    auth.claimChecker.check { tokenKey := "access.role", claimType := "string" }
        nestedToken ["user"] = (true, none) ∧
    auth.claimChecker.check { tokenKey := "access.role", claimType := "string" }
        nestedToken ["manager"] = (false, none) :=
  claim_checker_round_trip ["access", "role"] (by decide) (by decide) "user" "manager"
    (by decide)

/-! ### The claim checker, by claim type -/

theorem is_wrapped_invalid_claim_type (msg : String) :
    auth.Error.Is (auth.Error.wrap msg auth.Error.ErrInvalidClaimType)
      auth.Error.ErrInvalidClaimType = true := by
  simp [auth.Error.Is]

theorem findClaim_roleToken (value : jwt.Value) :
    auth.findClaim "role" (roleToken value) = .ok value := by
  simp [auth.findClaim, roleToken, strings.Split, strings.splitChars, auth.findClaimLoop,
    jwt.MapClaims.get, List.lookup]

/-- C11: a checker of claim type `"string"` whose token key resolves to a
value `x`.  If `x` is a string, `check` returns without error whether `x` is an
element of the accepted values; if `x` is anything else, `check` returns
`false` with an error that wraps `ErrInvalidClaimType`. -/
theorem check_string_type (c : auth.claimChecker) (token : jwt.Token)
    (acceptedValues : List String) (x : jwt.Value)
    (htype : c.claimType = "string") (hfind : auth.findClaim c.tokenKey token = .ok x) :
    (∀ str, x = jwt.Value.string str →
      c.check token acceptedValues = (decide (str ∈ acceptedValues), none)) ∧
    (x.isString = false →
      c.check token acceptedValues =
        (false, some (auth.Error.wrap "can't cast claim to string"
          auth.Error.ErrInvalidClaimType)) ∧
      auth.Error.Is (auth.Error.wrap "can't cast claim to string"
        auth.Error.ErrInvalidClaimType) auth.Error.ErrInvalidClaimType = true) := by
  constructor
  · intro str hx
    subst hx
    simp [auth.claimChecker.check, hfind, htype]
  · intro hx
    refine ⟨?_, is_wrapped_invalid_claim_type _⟩
    cases x <;> simp_all [auth.claimChecker.check, jwt.Value.isString]

/-- Witness of C11, the tests on the claim `role`: the string `"user"` is
accepted for `["user", "manager"]`, and a nil claim is a type error. -/
theorem check_string_type_witness :
    auth.claimChecker.check { tokenKey := "role", claimType := "string" }
        (roleToken (jwt.Value.string "user")) ["user", "manager"] = (true, none) ∧
    auth.claimChecker.check { tokenKey := "role", claimType := "string" }
        (roleToken jwt.Value.null) ["user", "manager"] =
      (false, some (auth.Error.wrap "can't cast claim to string"
        auth.Error.ErrInvalidClaimType)) :=
  ⟨(check_string_type { tokenKey := "role", claimType := "string" }
      (roleToken (jwt.Value.string "user")) ["user", "manager"] (jwt.Value.string "user")
      rfl (findClaim_roleToken _)).1 "user" rfl,
   ((check_string_type { tokenKey := "role", claimType := "string" }
      (roleToken jwt.Value.null) ["user", "manager"] jwt.Value.null
      rfl (findClaim_roleToken _)).2 rfl).1⟩

/-- C14: a checker whose claim type is neither `"string"` nor `"[]string"`, on a
token in which the token key resolves to a value: `check` returns `false` with
the error `ErrUnsupportedClaimType`, whatever the value and the accepted
values are. -/
theorem check_unsupported_type (c : auth.claimChecker) (token : jwt.Token)
    (acceptedValues : List String) (x : jwt.Value)
    (h1 : c.claimType ≠ "string") (h2 : c.claimType ≠ "[]string")
    (hfind : auth.findClaim c.tokenKey token = .ok x) :
    c.check token acceptedValues = (false, some auth.Error.ErrUnsupportedClaimType) := by
  simp [auth.claimChecker.check, hfind, h1, h2]

/-- Witness of C14, the test "unsupported claim type". -/
theorem check_unsupported_type_witness :
    auth.claimChecker.check { tokenKey := "role", claimType := "unsupported" }
        (roleToken (jwt.Value.string "user")) ["user", "manager"] =
      (false, some auth.Error.ErrUnsupportedClaimType) :=
  check_unsupported_type { tokenKey := "role", claimType := "unsupported" }
    (roleToken (jwt.Value.string "user")) ["user", "manager"] (jwt.Value.string "user")
    (by decide) (by decide) (findClaim_roleToken _)

theorem checkElements_strings (acceptedValues : List String) (xs : List String) :
    auth.checkElements acceptedValues (xs.map jwt.Value.string) =
      (xs.any (fun str => acceptedValues.contains str), none) := by
  induction xs with
  | nil => rfl
  | cons x xs ih =>
    by_cases hx : x ∈ acceptedValues
    · simp [auth.checkElements, hx]
    · simp [auth.checkElements, hx, ih]

/-- C12: a checker of claim type `"[]string"` whose token key resolves to a list
of strings.  `check` returns no error, and it admits if and only if at least
one element of the list is an element of the accepted values; so an empty
list, or an empty list of accepted values, is never admitted. -/
theorem check_string_list (c : auth.claimChecker) (token : jwt.Token)
    (acceptedValues : List String) (xs : List String)
    (htype : c.claimType = "[]string")
    (hfind : auth.findClaim c.tokenKey token =
      .ok (jwt.Value.array (xs.map jwt.Value.string))) :
    (c.check token acceptedValues).2 = none ∧
    ((c.check token acceptedValues).1 = true ↔ ∃ str ∈ xs, str ∈ acceptedValues) ∧
    (xs = [] → (c.check token acceptedValues).1 = false) ∧
    (acceptedValues = [] → (c.check token acceptedValues).1 = false) := by
  have hne : c.claimType ≠ "string" := by rw [htype]; decide
  have hcheck : c.check token acceptedValues =
      (xs.any (fun str => acceptedValues.contains str), none) := by
    simp only [auth.claimChecker.check, hfind, hne, htype, if_false, if_true]
    exact checkElements_strings acceptedValues xs
  rw [hcheck]
  refine ⟨rfl, ?_, ?_, ?_⟩
  · simp
  · intro h
    simp [h]
  · intro h
    simp [h]

/-- Witness of C12, the tests "no nesting with []string type" and "invalid role
with []string type". -/
theorem check_string_list_witness :
    (auth.claimChecker.check { tokenKey := "role", claimType := "[]string" }
        (roleToken (jwt.Value.array [jwt.Value.string "user", jwt.Value.string "dummy"]))
        ["user", "manager"]).1 = true ∧
    (auth.claimChecker.check { tokenKey := "role", claimType := "[]string" }
        (roleToken (jwt.Value.array [jwt.Value.string "user", jwt.Value.string "dummy"]))
        ["user", "manager"]).2 = none :=
  ⟨(check_string_list { tokenKey := "role", claimType := "[]string" }
      (roleToken (jwt.Value.array [jwt.Value.string "user", jwt.Value.string "dummy"]))
      ["user", "manager"] ["user", "dummy"] rfl (findClaim_roleToken _)).2.1.mpr
      ⟨"user", by decide, by decide⟩,
   (check_string_list { tokenKey := "role", claimType := "[]string" }
      (roleToken (jwt.Value.array [jwt.Value.string "user", jwt.Value.string "dummy"]))
      ["user", "manager"] ["user", "dummy"] rfl (findClaim_roleToken _)).1⟩

/-- Counterexample to C13 as stated: the list `["user", 42]` holds an element
that is not a string, yet for the accepted values `["user"]` the checker of
type `"[]string"` admits it without error, the loop returning at the accepted
first element. -/
theorem check_list_mixed_admitted :
    auth.claimChecker.check { tokenKey := "role", claimType := "[]string" }
        (roleToken (jwt.Value.array [jwt.Value.string "user", jwt.Value.number 42]))
        ["user"] = (true, none) ∧
    (jwt.Value.number 42).isString = false := by
  constructor
  · simp [auth.claimChecker.check, findClaim_roleToken, auth.checkElements]
  · rfl

theorem checkElements_first_bad (acceptedValues : List String) (pre : List String)
    (bad : jwt.Value) (post : List jwt.Value) (hbad : bad.isString = false)
    (hpre : ∀ str ∈ pre, str ∉ acceptedValues) :
    auth.checkElements acceptedValues (pre.map jwt.Value.string ++ bad :: post) =
      (false, some (auth.Error.wrap "can't cast claim element to string"
        auth.Error.ErrInvalidClaimType)) := by
  induction pre with
  | nil =>
    cases bad <;> simp_all [auth.checkElements, jwt.Value.isString]
  | cons x xs ih =>
    have hx : acceptedValues.contains x = false := by
      simpa using hpre x (List.mem_cons_self _ _)
    simp only [List.map_cons, List.cons_append, auth.checkElements, hx]
    exact ih (fun str h => hpre str (List.mem_cons_of_mem _ h))

theorem checkElements_accepted_first (acceptedValues : List String) (pre : List String)
    (rest : List jwt.Value) (hpre : ∃ str ∈ pre, str ∈ acceptedValues) :
    auth.checkElements acceptedValues (pre.map jwt.Value.string ++ rest) = (true, none) := by
  induction pre with
  | nil => simp at hpre
  | cons x xs ih =>
    by_cases hx : x ∈ acceptedValues
    · simp [auth.checkElements, hx]
    · have hx' : acceptedValues.contains x = false := by simpa using hx
      simp only [List.map_cons, List.cons_append, auth.checkElements, hx']
      apply ih
      obtain ⟨str, hmem, hacc⟩ := hpre
      rcases List.mem_cons.mp hmem with rfl | hmem
      · exact absurd hacc hx
      · exact ⟨str, hmem, hacc⟩

/-- C13, amended: a checker of claim type `"[]string"` whose token key resolves
to a value `x`.  If `x` is not a list, or is a list whose first element that is
not a string is preceded by no element of the accepted values, `check` returns
`false` with an error that wraps `ErrInvalidClaimType`.  If an element of the
accepted values precedes the first element that is not a string, `check`
admits without error. -/
theorem check_list_type_error (c : auth.claimChecker) (token : jwt.Token)
    (acceptedValues : List String) (x : jwt.Value)
    (htype : c.claimType = "[]string") (hfind : auth.findClaim c.tokenKey token = .ok x) :
    (x.isArray = false →
      c.check token acceptedValues =
        (false, some (auth.Error.wrap "can't cast claim to []string"
          auth.Error.ErrInvalidClaimType)) ∧
      auth.Error.Is (auth.Error.wrap "can't cast claim to []string"
        auth.Error.ErrInvalidClaimType) auth.Error.ErrInvalidClaimType = true) ∧
    (∀ (pre : List String) (bad : jwt.Value) (post : List jwt.Value),
      x = jwt.Value.array (pre.map jwt.Value.string ++ bad :: post) →
      bad.isString = false → (∀ str ∈ pre, str ∉ acceptedValues) →
      c.check token acceptedValues =
        (false, some (auth.Error.wrap "can't cast claim element to string"
          auth.Error.ErrInvalidClaimType)) ∧
      auth.Error.Is (auth.Error.wrap "can't cast claim element to string"
        auth.Error.ErrInvalidClaimType) auth.Error.ErrInvalidClaimType = true) ∧
    (∀ (pre : List String) (bad : jwt.Value) (post : List jwt.Value),
      x = jwt.Value.array (pre.map jwt.Value.string ++ bad :: post) →
      bad.isString = false → (∃ str ∈ pre, str ∈ acceptedValues) →
      c.check token acceptedValues = (true, none)) := by
  have hne : c.claimType ≠ "string" := by rw [htype]; decide
  refine ⟨?_, ?_, ?_⟩
  · intro hx
    refine ⟨?_, is_wrapped_invalid_claim_type _⟩
    cases x <;> simp_all [auth.claimChecker.check, jwt.Value.isArray]
  · intro pre bad post hx hbad hpre
    subst hx
    refine ⟨?_, is_wrapped_invalid_claim_type _⟩
    simp only [auth.claimChecker.check, hfind, hne, htype, if_false, if_true]
    exact checkElements_first_bad acceptedValues pre bad post hbad hpre
  · intro pre bad post hx _ hpre
    subst hx
    simp only [auth.claimChecker.check, hfind, hne, htype, if_false, if_true]
    exact checkElements_accepted_first acceptedValues pre (bad :: post) hpre

/-- Witness of C13 amended: the test "[]string type provided but not in token"
(a string where a list is expected), and the list `["admin", 42]` for the
accepted values `["user"]`. -/
theorem check_list_type_error_witness :
    auth.claimChecker.check { tokenKey := "role", claimType := "[]string" }
        (roleToken (jwt.Value.string "user")) ["user", "manager"] =
      (false, some (auth.Error.wrap "can't cast claim to []string"
        auth.Error.ErrInvalidClaimType)) ∧
    auth.claimChecker.check { tokenKey := "role", claimType := "[]string" }
        (roleToken (jwt.Value.array [jwt.Value.string "admin", jwt.Value.number 42]))
        ["user"] =
      (false, some (auth.Error.wrap "can't cast claim element to string"
        auth.Error.ErrInvalidClaimType)) :=
  ⟨((check_list_type_error { tokenKey := "role", claimType := "[]string" }
      (roleToken (jwt.Value.string "user")) ["user", "manager"] (jwt.Value.string "user")
      rfl (findClaim_roleToken _)).1 rfl).1,
   ((check_list_type_error { tokenKey := "role", claimType := "[]string" }
      (roleToken (jwt.Value.array [jwt.Value.string "admin", jwt.Value.number 42]))
      ["user"] (jwt.Value.array [jwt.Value.string "admin", jwt.Value.number 42])
      rfl (findClaim_roleToken _)).2.1 ["admin"] (jwt.Value.number 42) [] rfl rfl
      (by decide)).1⟩

/-! ### Token extraction -/

/-- C15: `extractToken`, with `h` the value `c.GetHeader("Authorization")`, which
is the empty string when the header is absent.  The result is
`ErrNoAuthHeader` if and only if `h` is empty; `ErrMalformatedAuthHeader` if and
only if `h` is not empty and splitting it on the space character does not give
exactly two parts; and it is a token if and only if `h` is not empty and the
split gives exactly two parts, of which the token is the second. -/
theorem extractToken_classification (c : gin.Context) :
    (http.Header.values c.Request.Header "Authorization" = none →
      c.GetHeader "Authorization" = "") ∧
    (auth.extractToken c = .error auth.Error.ErrNoAuthHeader ↔
      c.GetHeader "Authorization" = "") ∧
    (auth.extractToken c = .error auth.Error.ErrMalformatedAuthHeader ↔
      c.GetHeader "Authorization" ≠ "" ∧
      (strings.Split (c.GetHeader "Authorization") ' ').length ≠ 2) ∧
    (∀ token, auth.extractToken c = .ok token ↔
      c.GetHeader "Authorization" ≠ "" ∧
      ∃ scheme, strings.Split (c.GetHeader "Authorization") ' ' = [scheme, token]) := by
  refine ⟨?_, ?_⟩
  · intro h
    simp [gin.Context.GetHeader, http.Header.Get, h]
  · unfold auth.extractToken
    simp only
    by_cases hempty : c.GetHeader "Authorization" = ""
    · simp [hempty]
    · simp only [hempty, if_false]
      rcases hs : strings.Split (c.GetHeader "Authorization") ' ' with
        _ | ⟨a, _ | ⟨b, _ | ⟨d, l⟩⟩⟩ <;> simp [hempty]

/-- Witness of C15, the tests of `extractToken`: `Bearer token` gives `token`,
and `token` alone is malformed. -/
theorem extractToken_classification_witness :
    auth.extractToken (bearerContext "Bearer token") = .ok "token" ∧
    auth.extractToken (bearerContext "token") = .error auth.Error.ErrMalformatedAuthHeader :=
  ⟨((extractToken_classification (bearerContext "Bearer token")).2.2.2 "token").mpr
      ⟨by decide, "Bearer", by decide⟩,
   (extractToken_classification (bearerContext "token")).2.2.1.mpr
      ⟨by decide, by decide⟩⟩

/-! ### The configuration cascade -/

open service in
theorem mergeMaxBodySize_frame (e : EndpointConfiguration) (conf : Config) :
    (e.mergeMaxBodySize conf).Auth = e.Auth ∧
    (e.mergeMaxBodySize conf).RateLimit = e.RateLimit ∧
    (e.mergeMaxBodySize conf).MaxHeaderSize = e.MaxHeaderSize := by
  unfold EndpointConfiguration.mergeMaxBodySize
  split_ifs <;> exact ⟨rfl, rfl, rfl⟩

open service in
theorem mergeMaxHeaderSize_frame (e : EndpointConfiguration) (conf : Config) :
    (e.mergeMaxHeaderSize conf).Auth = e.Auth ∧
    (e.mergeMaxHeaderSize conf).RateLimit = e.RateLimit ∧
    (e.mergeMaxHeaderSize conf).MaxBodySize = e.MaxBodySize := by
  unfold EndpointConfiguration.mergeMaxHeaderSize
  split_ifs <;> exact ⟨rfl, rfl, rfl⟩

open service in
theorem inheritRateLimit_frame (e : EndpointConfiguration) (conf : Config) :
    (e.inheritRateLimit conf).Auth = e.Auth ∧
    (e.inheritRateLimit conf).MaxBodySize = e.MaxBodySize ∧
    (e.inheritRateLimit conf).MaxHeaderSize = e.MaxHeaderSize := by
  unfold EndpointConfiguration.inheritRateLimit
  split_ifs <;> exact ⟨rfl, rfl, rfl⟩

open service in
theorem backfillRateLimit_frame (e : EndpointConfiguration) (conf : Config) :
    (e.backfillRateLimit conf).Auth = e.Auth ∧
    (e.backfillRateLimit conf).MaxBodySize = e.MaxBodySize ∧
    (e.backfillRateLimit conf).MaxHeaderSize = e.MaxHeaderSize := by
  unfold EndpointConfiguration.backfillRateLimit
  split
  · split_ifs <;> exact ⟨rfl, rfl, rfl⟩
  · exact ⟨rfl, rfl, rfl⟩

open service in
theorem inheritAuth_frame (e : EndpointConfiguration) (conf : Config) :
    (e.inheritAuth conf).MaxBodySize = e.MaxBodySize ∧
    (e.inheritAuth conf).MaxHeaderSize = e.MaxHeaderSize := by
  unfold EndpointConfiguration.inheritAuth
  split_ifs <;> exact ⟨rfl, rfl⟩

open service in
/-- The auth block after the merge: only the fifth statement touches it. -/
theorem merge_Auth (e : EndpointConfiguration) (conf : Config) :
    (e.MergeFromServiceConfiguration conf).Auth =
      if e.Auth = none ∧ conf.Middlewares.Auth.Enabled = true then
        some { Enabled := true
               AuthorizedRoles := conf.Middlewares.Auth.AuthMiddlewareConfig.AuthorizedRoles.Values
               RequiredPermission :=
                 conf.Middlewares.Auth.AuthMiddlewareConfig.RequiredPermissions.Values }
      else e.Auth := by
  unfold EndpointConfiguration.MergeFromServiceConfiguration
  rw [inheritAuth_Auth, (backfillRateLimit_frame _ conf).1, (inheritRateLimit_frame _ conf).1,
    (mergeMaxHeaderSize_frame _ conf).1, (mergeMaxBodySize_frame _ conf).1]

open service in
theorem inheritRateLimit_RateLimit (e : EndpointConfiguration) (conf : Config) :
    (e.inheritRateLimit conf).RateLimit =
      if e.RateLimit = none ∧ conf.Middlewares.RateLimit.Enabled = true then
        some { Enabled := true
               LimitBy := some conf.Middlewares.RateLimit.RateLimiterConfig.LimitBy
               Window := some conf.Middlewares.RateLimit.RateLimiterConfig.Window
               MaxCount := some conf.Middlewares.RateLimit.RateLimiterConfig.MaxCount }
      else e.RateLimit := by
  unfold EndpointConfiguration.inheritRateLimit
  split_ifs <;> rfl

open service in
theorem backfillRateLimit_RateLimit (e : EndpointConfiguration) (conf : Config) :
    (e.backfillRateLimit conf).RateLimit =
      e.RateLimit.map (fun rl => if rl.Enabled = true then rl.backfill conf else rl) := by
  unfold EndpointConfiguration.backfillRateLimit
  cases h : e.RateLimit with
  | none => simp [h]
  | some rl =>
    simp only [Option.map_some']
    split_ifs
    · rfl
    · exact h

open service in
/-- The rate-limit block after the merge: that of the third and fourth
statements run on the declared block. -/
theorem merge_RateLimit (e : EndpointConfiguration) (conf : Config) :
    (e.MergeFromServiceConfiguration conf).RateLimit =
      (if e.RateLimit = none ∧ conf.Middlewares.RateLimit.Enabled = true then
        some { Enabled := true
               LimitBy := some conf.Middlewares.RateLimit.RateLimiterConfig.LimitBy
               Window := some conf.Middlewares.RateLimit.RateLimiterConfig.Window
               MaxCount := some conf.Middlewares.RateLimit.RateLimiterConfig.MaxCount }
      else e.RateLimit).map (fun rl => if rl.Enabled = true then rl.backfill conf else rl) := by
  unfold EndpointConfiguration.MergeFromServiceConfiguration
  rw [inheritAuth_RateLimit, backfillRateLimit_RateLimit, inheritRateLimit_RateLimit,
    (mergeMaxHeaderSize_frame _ conf).2.1, (mergeMaxBodySize_frame _ conf).2.1]

open service in
/-- The size limits after the merge: those of the first two statements. -/
theorem merge_sizes (e : EndpointConfiguration) (conf : Config) :
    (e.MergeFromServiceConfiguration conf).MaxBodySize =
      (if e.MaxBodySize = none ∧ conf.Middlewares.MaxBodySize > 0 then
        some conf.Middlewares.MaxBodySize else e.MaxBodySize) ∧
    (e.MergeFromServiceConfiguration conf).MaxHeaderSize =
      (if e.MaxHeaderSize = none ∧ conf.Middlewares.MaxHeaderSize > 0 then
        some conf.Middlewares.MaxHeaderSize else e.MaxHeaderSize) := by
  unfold EndpointConfiguration.MergeFromServiceConfiguration
  constructor
  · rw [(inheritAuth_frame _ conf).1, (backfillRateLimit_frame _ conf).2.1,
      (inheritRateLimit_frame _ conf).2.1, (mergeMaxHeaderSize_frame _ conf).2.2]
    unfold EndpointConfiguration.mergeMaxBodySize
    split_ifs <;> rfl
  · rw [(inheritAuth_frame _ conf).2, (backfillRateLimit_frame _ conf).2.2,
      (inheritRateLimit_frame _ conf).2.2]
    have h := (mergeMaxBodySize_frame e conf).2.2
    unfold EndpointConfiguration.mergeMaxHeaderSize
    rw [h]
    split_ifs
    · rfl
    · exact h

open service in
/-- C16: an endpoint that declares no rate-limit block.  Under a service whose
rate limiting is enabled, the resolved block is present with `Enabled = true`
and `LimitBy`, `Window`, `MaxCount` all set to the service's values; under a
service whose rate limiting is disabled, the block stays absent. -/
theorem merge_rate_limit_inherited (e : EndpointConfiguration) (conf : Config)
    (hnone : e.RateLimit = none) :
    (conf.Middlewares.RateLimit.Enabled = true →
      (e.MergeFromServiceConfiguration conf).RateLimit =
        some { Enabled := true
               LimitBy := some conf.Middlewares.RateLimit.RateLimiterConfig.LimitBy
               Window := some conf.Middlewares.RateLimit.RateLimiterConfig.Window
               MaxCount := some conf.Middlewares.RateLimit.RateLimiterConfig.MaxCount }) ∧
    (conf.Middlewares.RateLimit.Enabled = false →
      (e.MergeFromServiceConfiguration conf).RateLimit = none) := by
  rw [merge_RateLimit]
  constructor
  · intro hen
    simp [hnone, hen, EndpointRateLimit.backfill]
  · intro hen
    simp [hnone, hen]

open service in
/-- Witness of C16, the test "Rate limit config well merged": the service
`{sub_claim, 1h, 10}` gives the endpoint `{true, sub_claim, 1h, 10}`. -/
theorem merge_rate_limit_inherited_witness :
    (EndpointConfiguration.MergeFromServiceConfiguration {} rateLimitedConf).RateLimit =
      some { Enabled := true, LimitBy := some "sub_claim", Window := some 3600000000000,
             MaxCount := some 10 } :=
  (merge_rate_limit_inherited {} rateLimitedConf rfl).1 rfl

open service in
/-- C17: an endpoint that declares its own enabled rate-limit block `rl`.  The
resolved block is enabled, and each of `LimitBy`, `Window`, `MaxCount` is the
endpoint's value when the endpoint set it, whatever the value, and the
service's value when the endpoint left it unset
(`x.getD d` is `v` for `x = some v` and `d` for `x = none`). -/
theorem merge_rate_limit_backfill (e : EndpointConfiguration) (conf : Config)
    (rl : EndpointRateLimit) (hrl : e.RateLimit = some rl) (hen : rl.Enabled = true) :
    (e.MergeFromServiceConfiguration conf).RateLimit =
      some { Enabled := true
             LimitBy := some (rl.LimitBy.getD conf.Middlewares.RateLimit.RateLimiterConfig.LimitBy)
             Window := some (rl.Window.getD conf.Middlewares.RateLimit.RateLimiterConfig.Window)
             MaxCount :=
               some (rl.MaxCount.getD conf.Middlewares.RateLimit.RateLimiterConfig.MaxCount) } := by
  rw [merge_RateLimit]
  obtain ⟨h0, h1, h2, h3⟩ := backfill_fields rl conf
  have hb : rl.backfill conf =
      { Enabled := true
        LimitBy := some (rl.LimitBy.getD conf.Middlewares.RateLimit.RateLimiterConfig.LimitBy)
        Window := some (rl.Window.getD conf.Middlewares.RateLimit.RateLimiterConfig.Window)
        MaxCount :=
          some (rl.MaxCount.getD conf.Middlewares.RateLimit.RateLimiterConfig.MaxCount) } := by
    rw [← h1, ← h2, ← h3, ← hen, ← h0]
  simp [hrl, hen, hb]

open service in
/-- Witness of C17: the endpoint `{enabled, maxCount 14}` under the service
`{sub_claim, 1h, 10}` resolves to `{enabled, sub_claim, 1h, 14}`. -/
theorem merge_rate_limit_backfill_witness :
    (maxCountOnly.MergeFromServiceConfiguration rateLimitedConf).RateLimit =
      some { Enabled := true, LimitBy := some "sub_claim", Window := some 3600000000000,
             MaxCount := some 14 } :=
  merge_rate_limit_backfill maxCountOnly rateLimitedConf
    { Enabled := true, MaxCount := some 14 } rfl rfl

open service in
/-- C18: the size limits after the merge.  The resolved `MaxBodySize` is the
endpoint's value if the endpoint set one; else the service's value if that
value is strictly positive; else unset.  The resolved `MaxHeaderSize` follows
the same rule with the service's `MaxHeaderSize`. -/
theorem merge_size_limits (e : EndpointConfiguration) (conf : Config) :
    ((∀ n, e.MaxBodySize = some n →
        (e.MergeFromServiceConfiguration conf).MaxBodySize = some n) ∧
      (e.MaxBodySize = none → conf.Middlewares.MaxBodySize > 0 →
        (e.MergeFromServiceConfiguration conf).MaxBodySize =
          some conf.Middlewares.MaxBodySize) ∧
      (e.MaxBodySize = none → ¬ conf.Middlewares.MaxBodySize > 0 →
        (e.MergeFromServiceConfiguration conf).MaxBodySize = none)) ∧
    ((∀ n, e.MaxHeaderSize = some n →
        (e.MergeFromServiceConfiguration conf).MaxHeaderSize = some n) ∧
      (e.MaxHeaderSize = none → conf.Middlewares.MaxHeaderSize > 0 →
        (e.MergeFromServiceConfiguration conf).MaxHeaderSize =
          some conf.Middlewares.MaxHeaderSize) ∧
      (e.MaxHeaderSize = none → ¬ conf.Middlewares.MaxHeaderSize > 0 →
        (e.MergeFromServiceConfiguration conf).MaxHeaderSize = none)) := by
  obtain ⟨hb, hh⟩ := merge_sizes e conf
  rw [hb, hh]
  refine ⟨⟨?_, ?_, ?_⟩, ⟨?_, ?_, ?_⟩⟩
  · intro n hn
    simp [hn]
  · intro hn hpos
    simp [hn, hpos]
  · intro hn hpos
    simp [hn, hpos]
  · intro n hn
    simp [hn]
  · intro hn hpos
    simp [hn, hpos]
  · intro hn hpos
    simp [hn, hpos]

open service in
/-- Witness of C18, the tests of the body size: the service's 10 is taken when
the endpoint sets nothing, the endpoint's 12 wins over it, and a service value
of 0 leaves the endpoint without limit. -/
theorem merge_size_limits_witness :
    (EndpointConfiguration.MergeFromServiceConfiguration {}
        { Middlewares := { MaxBodySize := 10 } }).MaxBodySize = some 10 ∧
    (EndpointConfiguration.MergeFromServiceConfiguration { MaxBodySize := some 12 }
        { Middlewares := { MaxBodySize := 10 } }).MaxBodySize = some 12 ∧
    (EndpointConfiguration.MergeFromServiceConfiguration {}
        { Middlewares := { MaxBodySize := 0 } }).MaxBodySize = none :=
  ⟨(merge_size_limits {} { Middlewares := { MaxBodySize := 10 } }).1.2.1 rfl (by decide),
   (merge_size_limits { MaxBodySize := some 12 }
      { Middlewares := { MaxBodySize := 10 } }).1.1 12 rfl,
   (merge_size_limits {} { Middlewares := { MaxBodySize := 0 } }).1.2.2 rfl (by decide)⟩

open service in
/-- C19: an endpoint that declares no auth block.  Under a service whose auth
is enabled, the resolved block is present with `Enabled = true`, the
authorized roles being the values of the service's authorized roles and the
required permissions the values of the service's required permissions; under
a service whose auth is disabled, the block stays absent. -/
theorem merge_auth_inherited (e : EndpointConfiguration) (conf : Config)
    (hnone : e.Auth = none) :
    (conf.Middlewares.Auth.Enabled = true →
      (e.MergeFromServiceConfiguration conf).Auth =
        some { Enabled := true
               AuthorizedRoles := conf.Middlewares.Auth.AuthMiddlewareConfig.AuthorizedRoles.Values
               RequiredPermission :=
                 conf.Middlewares.Auth.AuthMiddlewareConfig.RequiredPermissions.Values }) ∧
    (conf.Middlewares.Auth.Enabled = false →
      (e.MergeFromServiceConfiguration conf).Auth = none) := by
  rw [merge_Auth]
  constructor
  · intro hen
    simp [hnone, hen]
  · intro hen
    simp [hnone, hen]

open service in
/-- Witness of C19, the test "Auth well merged". -/
theorem merge_auth_inherited_witness :
    (EndpointConfiguration.MergeFromServiceConfiguration {} authConf).Auth =
      some { Enabled := true, AuthorizedRoles := ["user"], RequiredPermission := ["user"] } :=
  (merge_auth_inherited {} authConf rfl).1 rfl

open service in
/-- C20: the auth opt-out.  For a service that enables auth exactly when the
configuration does, and an endpoint merged with that configuration, the chain
is built and the auth guard is in it if and only if both the service's auth
and the endpoint's resolved auth block are enabled.  When the configuration
enables auth and the endpoint declares an auth block with `Enabled = false`,
the merge leaves that block as it is, present and disabled, and no handler of
the chain is the auth guard. -/
theorem auth_opt_out (conf : Config) (s : Service)
    (hauth : s.authEnabled = conf.Middlewares.Auth.Enabled)
    (declared : EndpointConfiguration) :
    ∃ middlewares,
      s.buildMiddlewaresChain (declared.MergeFromServiceConfiguration conf) =
        some middlewares ∧
      (Stage.auth ∈ middlewares.map HandlerFunc.stage ↔
        s.authEnabled = true ∧
        ∃ a, (declared.MergeFromServiceConfiguration conf).Auth = some a ∧ a.Enabled = true) ∧
      (∀ a, conf.Middlewares.Auth.Enabled = true → declared.Auth = some a →
        a.Enabled = false →
        (declared.MergeFromServiceConfiguration conf).Auth = some a ∧
        ∀ handler ∈ middlewares, handler.stage ≠ Stage.auth) := by
  obtain ⟨h1, h2⟩ := merge_pointers_set declared conf
  obtain ⟨middlewares, hm, hst⟩ := buildMiddlewaresChain_stages s
    (declared.MergeFromServiceConfiguration conf) (fun h => h1 (hauth ▸ h)) h2
  have hiff : Stage.auth ∈ middlewares.map HandlerFunc.stage ↔
      s.authEnabled = true ∧
      ∃ a, (declared.MergeFromServiceConfiguration conf).Auth = some a ∧ a.Enabled = true := by
    rw [hst]
    simp only [List.mem_filter, specStageApplies]
    cases (declared.MergeFromServiceConfiguration conf).Auth <;> simp
  refine ⟨middlewares, hm, hiff, ?_⟩
  intro a hen ha hdis
  have hkeep : (declared.MergeFromServiceConfiguration conf).Auth = some a := by
    rw [merge_Auth]
    simp [ha]
  refine ⟨hkeep, ?_⟩
  intro handler hmem hstage
  have hin : Stage.auth ∈ middlewares.map HandlerFunc.stage :=
    List.mem_map.mpr ⟨handler, hmem, hstage⟩
  obtain ⟨_, a', ha', hen'⟩ := hiff.mp hin
  rw [hkeep] at ha'
  cases ha'
  rw [hdis] at hen'
  cases hen'

open service in
/-- Witness of C20: under the configuration of "All middlewares activated",
whose auth is enabled, the endpoint `optOut` keeps its disabled auth block and
its chain is built without auth guard. -/
theorem auth_opt_out_witness :
    ∃ middlewares,
      activatedService.buildMiddlewaresChain
        (optOut.MergeFromServiceConfiguration allActivated) = some middlewares ∧
      (optOut.MergeFromServiceConfiguration allActivated).Auth = some { Enabled := false } ∧
      ∀ handler ∈ middlewares, handler.stage ≠ Stage.auth := by
  obtain ⟨middlewares, hm, _, hout⟩ := auth_opt_out allActivated activatedService rfl optOut
  obtain ⟨hkeep, hno⟩ := hout { Enabled := false } rfl rfl rfl
  exact ⟨middlewares, hm, hkeep, hno⟩

/-! ### Invariants of the fixed-window counter -/

/-- One call of `allow`: `window` and `maxCount` are kept, and the map changes
at most at the key of the call, where it is set to a new entry. -/
theorem allow_shape (f : fixedWindowCounter) (k : String) (t : Int) :
    (f.allow k t).1.window = f.window ∧ (f.allow k t).1.maxCount = f.maxCount ∧
    ((f.allow k t).1.counters = f.counters ∨
      (f.allow k t).1.counters = Map.set f.counters k { timestamp := t, count := 1 } ∨
      ∃ e, f.counters k = some e ∧ e.count < f.maxCount ∧
        (f.allow k t).1.counters =
          Map.set f.counters k { timestamp := e.timestamp, count := e.count + 1 }) := by
  unfold fixedWindowCounter.allow
  split
  · exact ⟨rfl, rfl, Or.inr (Or.inl rfl)⟩
  · rename_i e he
    split_ifs with h1 h2
    · exact ⟨rfl, rfl, Or.inr (Or.inl rfl)⟩
    · exact ⟨rfl, rfl, Or.inr (Or.inr ⟨e, he, h2, rfl⟩)⟩
    · exact ⟨rfl, rfl, Or.inl rfl⟩

/-- C26: key independence.  A call `allow(k)` leaves the entry of every other
key as it was, present or absent; and on two limiters with the same window,
the same maximal count and the same entry for `k`, the call at the same time
returns the same result and leaves the same entry for `k`. -/
theorem allow_key_independent (f : fixedWindowCounter) (k k' : String) (t : Int)
    (hk : k' ≠ k) :
    (f.allow k t).1.counters k' = f.counters k' ∧
    ∀ g : fixedWindowCounter, g.window = f.window → g.maxCount = f.maxCount →
      g.counters k = f.counters k →
      (g.allow k t).2 = (f.allow k t).2 ∧
      (g.allow k t).1.counters k = (f.allow k t).1.counters k := by
  constructor
  · obtain ⟨_, _, h | h | ⟨e, _, _, h⟩⟩ := allow_shape f k t
    · rw [h]
    · rw [h, Map.set_other _ _ _ _ hk]
    · rw [h, Map.set_other _ _ _ _ hk]
  · intro g hw hm hc
    unfold fixedWindowCounter.allow
    rw [hc, hw, hm]
    split
    · exact ⟨rfl, by simp [Map.set_same]⟩
    · split_ifs
      · exact ⟨rfl, by simp [Map.set_same]⟩
      · exact ⟨rfl, by simp [Map.set_same]⟩
      · exact ⟨rfl, hc⟩

/-- Witness of C26: on the limiter of the test, a call for the key `id` leaves
the key `other` without entry. -/
theorem allow_key_independent_witness :
    (testLimiter.allow "id" 0).1.counters "other" = none :=
  (allow_key_independent testLimiter "id" "other" 0 (by decide)).1

theorem allow_preserves_bounds (f : fixedWindowCounter) (k : String) (t : Int)
    (h : ∀ k' e, f.counters k' = some e → 1 ≤ e.count ∧ e.count ≤ max 1 f.maxCount) :
    ∀ k' e, (f.allow k t).1.counters k' = some e →
      1 ≤ e.count ∧ e.count ≤ max 1 (f.allow k t).1.maxCount := by
  intro k' e he
  obtain ⟨_, hm, hs | hs | ⟨e0, he0, hlt, hs⟩⟩ := allow_shape f k t
  · rw [hm]
    rw [hs] at he
    exact h k' e he
  · rw [hm]
    rw [hs] at he
    by_cases hk : k' = k
    · subst hk
      rw [Map.set_same] at he
      cases he
      exact ⟨le_refl _, le_max_left _ _⟩
    · rw [Map.set_other _ _ _ _ hk] at he
      exact h k' e he
  · rw [hm]
    rw [hs] at he
    by_cases hk : k' = k
    · subst hk
      rw [Map.set_same] at he
      cases he
      have h0 := (h k' e0 he0).1
      constructor
      · show 1 ≤ e0.count + 1
        omega
      · show e0.count + 1 ≤ max 1 f.maxCount
        have := le_max_right 1 f.maxCount
        omega
    · rw [Map.set_other _ _ _ _ hk] at he
      exact h k' e he

theorem allow_keeps_keys (f : fixedWindowCounter) (k : String) (t : Int) (k' : String)
    (h : (f.counters k').isSome = true) : ((f.allow k t).1.counters k').isSome = true := by
  by_cases hk : k' = k
  · subst hk
    obtain ⟨_, _, hs | hs | ⟨e0, _, _, hs⟩⟩ := allow_shape f k' t
    · rw [hs]; exact h
    · rw [hs, Map.set_same]; rfl
    · rw [hs, Map.set_same]; rfl
  · obtain ⟨_, _, hs | hs | ⟨e0, _, _, hs⟩⟩ := allow_shape f k t
    · rw [hs]; exact h
    · rw [hs, Map.set_other _ _ _ _ hk]; exact h
    · rw [hs, Map.set_other _ _ _ _ hk]; exact h

theorem allowCalls_append (calls more : List (String × Int)) :
    ∀ f : fixedWindowCounter,
      allowCalls f (calls ++ more) = allowCalls (allowCalls f calls) more := by
  induction calls with
  | nil => intro f; rfl
  | cons call calls ih =>
    intro f
    simp only [List.cons_append, allowCalls]
    exact ih _

theorem allowCalls_preserves_bounds (calls : List (String × Int)) :
    ∀ f : fixedWindowCounter,
      (∀ k e, f.counters k = some e → 1 ≤ e.count ∧ e.count ≤ max 1 f.maxCount) →
      ∀ k e, (allowCalls f calls).counters k = some e →
        1 ≤ e.count ∧ e.count ≤ max 1 (allowCalls f calls).maxCount := by
  induction calls with
  | nil => intro f h; exact h
  | cons call calls ih =>
    intro f h
    exact ih _ (allow_preserves_bounds f call.1 call.2 h)

theorem allowCalls_maxCount (calls : List (String × Int)) :
    ∀ f : fixedWindowCounter, (allowCalls f calls).maxCount = f.maxCount := by
  induction calls with
  | nil => intro f; rfl
  | cons call calls ih =>
    intro f
    simp only [allowCalls]
    rw [ih, (allow_shape f call.1 call.2).2.1]

theorem allowCalls_keeps_keys (calls : List (String × Int)) :
    ∀ (f : fixedWindowCounter) (k : String), (f.counters k).isSome = true →
      ((allowCalls f calls).counters k).isSome = true := by
  induction calls with
  | nil => intro f k h; exact h
  | cons call calls ih =>
    intro f k h
    exact ih _ k (allow_keeps_keys f call.1 call.2 k h)

/-- C25: the counter invariant.  In every state reached from the limiter
without entries by a sequence of calls of `allow`, for any keys at any times,
every stored entry has a count of at least 1 and at most `max(1, maxCount)`;
and a key that has an entry keeps one through any further calls, so the set
of keys never shrinks. -/
theorem counter_invariant (W N : Int) (calls : List (String × Int)) :
    (∀ k e, (allowCalls (emptyLimiter W N) calls).counters k = some e →
      1 ≤ e.count ∧ e.count ≤ max 1 N) ∧
    (∀ (more : List (String × Int)) (k : String),
      ((allowCalls (emptyLimiter W N) calls).counters k).isSome = true →
      ((allowCalls (emptyLimiter W N) (calls ++ more)).counters k).isSome = true) := by
  constructor
  · intro k e he
    have h := allowCalls_preserves_bounds calls (emptyLimiter W N)
      (fun k' e' h' => by simp [emptyLimiter] at h') k e he
    rw [allowCalls_maxCount] at h
    exact h
  · intro more k h
    rw [allowCalls_append]
    exact allowCalls_keeps_keys more _ k h

/-- Witness of C25: after three calls for `id` within a window of two seconds
and at most two calls, the entry of `id` has the count 2. -/
theorem counter_invariant_witness :
    (allowCalls (emptyLimiter 2000000000 2) [("id", 0), ("id", 1), ("id", 2)]).counters "id" =
      some { timestamp := 0, count := 2 } ∧
    (1 : Int) ≤ 2 ∧ (2 : Int) ≤ max 1 2 :=
  ⟨by decide,
   (counter_invariant 2000000000 2 [("id", 0), ("id", 1), ("id", 2)]).1 "id"
     { timestamp := 0, count := 2 } (by decide)⟩

/-- C30: a limiter whose maximal count is zero or negative.  A call for a key
without entry, or with an entry older than the window, is admitted and stores
the count 1; the calls that follow a first call within its window are all
denied, so exactly one call per key and window is admitted.  And with a window
of 0, a call made strictly later than the stored timestamp is admitted,
whatever the maximal count. -/
theorem nonpositive_maxCount (f : fixedWindowCounter) (k : String) (t : Int) :
    (f.maxCount ≤ 0 →
      (f.counters k = none ∨ ∃ e, f.counters k = some e ∧ t - e.timestamp > f.window) →
      (f.allow k t).2 = true ∧
      (f.allow k t).1.counters k = some { timestamp := t, count := 1 }) ∧
    (f.maxCount ≤ 0 → f.counters k = none →
      ∀ ts : List Int, (∀ u ∈ ts, t ≤ u ∧ u ≤ t + f.window) →
      (allowSeq f k (t :: ts)).2 = true :: ts.map (fun _ => false)) ∧
    (f.window = 0 → ∀ e, f.counters k = some e → e.timestamp < t →
      (f.allow k t).2 = true ∧
      (f.allow k t).1.counters k = some { timestamp := t, count := 1 }) := by
  refine ⟨?_, ?_, ?_⟩
  · rintro _ (h | ⟨e, he, hlt⟩)
    · simp [fixedWindowCounter.allow, h, Map.set_same]
    · simp [fixedWindowCounter.allow, he, hlt, Map.set_same]
  · intro hN hk ts hts
    have hstep : f.allow k t =
        ({ f with counters := Map.set f.counters k { timestamp := t, count := 1 } }, true) := by
      simp [fixedWindowCounter.allow, hk]
    obtain ⟨h1, _⟩ := allowSeq_open_window f k t ts 1
      (Map.set f.counters k { timestamp := t, count := 1 }) (Map.set_same _ _ _)
      (fun u hu => (hts u hu).2)
    simp only [allowSeq, hstep]
    rw [h1]
    congr 1
    apply List.ext_getElem
    · simp
    · intro i h2 h3
      simp only [List.getElem_map, List.getElem_range]
      apply decide_eq_false
      omega
  · intro hw e he hlt
    have hgt : t - e.timestamp > f.window := by omega
    simp [fixedWindowCounter.allow, he, hgt, Map.set_same]

/-- Witness of C30: with a maximal count of 0 and a window of two seconds, of
three calls within the window the first only is admitted. -/
theorem nonpositive_maxCount_witness :
    (allowSeq (emptyLimiter 2000000000 0) "id" [0, 1, 2]).2 = [true, false, false] :=
  (nonpositive_maxCount (emptyLimiter 2000000000 0) "id" 0).2.1 (by decide) rfl [1, 2]
    (by decide)

/-! ### Key extraction for the rate limiter -/

theorem retrieveSubClaim_ne_default (parseUnverified : String → Option jwt.Token) :
    retrieveSubClaim parseUnverified ≠ defaultKeyRetriever := by
  intro h
  have h0 := congrFun h ({} : gin.Context)
  simp [retrieveSubClaim, defaultKeyRetriever, gin.Context.GetHeader, http.Header.Get,
    http.Header.values] at h0

/-- C22: the choice of the key retriever.  `selectKeyRetriever` returns the
subject-claim retriever if and only if `limitBy` is exactly `"sub_claim"`; for
every other string it returns the default retriever, which returns the key
`"global"` without error on every request.  So a rate limiter built for such a
`limitBy` counts every request, whatever the caller, on the one key
`"global"`. -/
theorem select_key_retriever (parseUnverified : String → Option jwt.Token) (limitBy : String) :
    (selectKeyRetriever parseUnverified limitBy = retrieveSubClaim parseUnverified ↔
      limitBy = "sub_claim") ∧
    (limitBy ≠ "sub_claim" →
      selectKeyRetriever parseUnverified limitBy = defaultKeyRetriever) ∧
    (∀ c : gin.Context, defaultKeyRetriever c = .ok "global") ∧
    (limitBy ≠ "sub_claim" → ∀ (window maxCount now : Int) (c : gin.Context),
      ((NewRateLimiter parseUnverified
          { LimitBy := limitBy, Window := window, MaxCount := maxCount }).Allow now c).1.limiter =
        ((NewRateLimiter parseUnverified
          { LimitBy := limitBy, Window := window, MaxCount := maxCount }).limiter.allow
            "global" now).1) := by
  refine ⟨?_, ?_, fun _ => rfl, ?_⟩
  · constructor
    · intro h
      by_contra hne
      simp only [selectKeyRetriever, hne, if_false] at h
      exact retrieveSubClaim_ne_default parseUnverified h.symm
    · intro h
      simp [selectKeyRetriever, h]
  · intro hne
    simp [selectKeyRetriever, hne]
  · intro hne window maxCount now c
    simp only [RateLimiter.Allow, NewRateLimiter, selectKeyRetriever, hne, if_false,
      defaultKeyRetriever]
    split_ifs <;> rfl

/-- Witness of C22, the cases of `TestSelectKeyRetriever` and the unrecognized
`sub_claims`. -/
theorem select_key_retriever_witness :
    selectKeyRetriever testParse "sub_claim" = retrieveSubClaim testParse ∧
    selectKeyRetriever testParse "" = defaultKeyRetriever ∧
    selectKeyRetriever testParse "sub_claims" = defaultKeyRetriever :=
  ⟨(select_key_retriever testParse "sub_claim").1.mpr rfl,
   (select_key_retriever testParse "").2.1 (by decide),
   (select_key_retriever testParse "sub_claims").2.1 (by decide)⟩

/-! ### Construction of the pipeline -/

open service in
/-- C27: nil-safety of the construction of the pipeline.  For a service built
by `New` from a configuration (the provider discovery having succeeded), every
endpoint has its auth block present when the service's auth is enabled, and
`LimitBy`, `Window`, `MaxCount` all set when its rate-limit block is present
and enabled; so `buildMiddlewaresChain` reads no nil pointer on any endpoint.
The auth middleware itself is set when the service's auth is enabled.  Hence
`AttachEndpoints` fails only where `router.Handle` refuses a route: on a
router whose `Handle` takes every route it registers them all. -/
theorem pipeline_nil_safe (newProvider : String → Option (String → String → Bool))
    (conf : Config) (s : Service) (hs : New newProvider conf = some s) :
    (∀ endpoint ∈ s.endpoints,
      (s.authEnabled = true → endpoint.Auth ≠ none) ∧
      (∀ rl, endpoint.RateLimit = some rl → rl.Enabled = true →
        rl.LimitBy ≠ none ∧ rl.Window ≠ none ∧ rl.MaxCount ≠ none) ∧
      (s.buildMiddlewaresChain endpoint).isSome = true) ∧
    (s.authEnabled = true → s.authMiddleware.isSome = true) ∧
    (∀ accepts : List Route → Route → Bool,
      (∀ router route, accepts router route = true) →
      ∀ router, (s.AttachEndpoints accepts router).isSome = true) := by
  obtain ⟨hauth, _, _, hends⟩ := New_fields newProvider conf s hs
  have hsafe : ∀ endpoint ∈ s.endpoints,
      (s.authEnabled = true → endpoint.Auth ≠ none) ∧
      (∀ rl, endpoint.RateLimit = some rl → rl.Enabled = true →
        rl.LimitBy ≠ none ∧ rl.Window ≠ none ∧ rl.MaxCount ≠ none) ∧
      (s.buildMiddlewaresChain endpoint).isSome = true := by
    intro endpoint hmem
    rw [hends] at hmem
    obtain ⟨e, _, rfl⟩ := List.mem_map.mp hmem
    obtain ⟨h1, h2⟩ := merge_pointers_set e conf
    obtain ⟨m, hm, _⟩ := buildMiddlewaresChain_stages s _ (fun h => h1 (hauth ▸ h)) h2
    exact ⟨fun h => h1 (hauth ▸ h), h2, by rw [hm]; rfl⟩
  refine ⟨hsafe, ?_, ?_⟩
  · intro hen
    unfold New at hs
    simp only at hs
    split_ifs at hs with h
    · split at hs
      · cases hs
      · cases hs
        rfl
    · cases hs
      exact absurd hen h
  · intro accepts hacc router
    obtain ⟨added, _, hadd⟩ := attachLoop_routes accepts s (fun _ _ => True) s.endpoints
      (fun e he => by
        obtain ⟨m, hm⟩ := Option.isSome_iff_exists.mp (hsafe e he).2.2
        exact ⟨m, hm, trivial⟩) router
    have hall : ∀ (routes r : List Route), acceptsAll accepts r routes = true := by
      intro routes
      induction routes with
      | nil => intro r; rfl
      | cons route routes ih =>
        intro r
        simp [acceptsAll, hacc, ih]
    unfold Service.AttachEndpoints
    rw [hadd, hall]
    rfl

open service in
/-- Witness of C27 on the configuration of "All middlewares activated": the
chain of the service's endpoint is built, and on a router that takes every
route the endpoint is registered. -/
theorem pipeline_nil_safe_witness :
    New testProvider allActivated = some activatedService ∧
    (∀ endpoint ∈ activatedService.endpoints,
      (activatedService.buildMiddlewaresChain endpoint).isSome = true) ∧
    (activatedService.AttachEndpoints (fun _ _ => true) []).isSome = true :=
  ⟨rfl,
   fun endpoint hmem =>
     ((pipeline_nil_safe testProvider allActivated activatedService rfl).1 endpoint hmem).2.2,
   (pipeline_nil_safe testProvider allActivated activatedService rfl).2.2
     (fun _ _ => true) (fun _ _ => rfl) []⟩

open service in
/-- On an endpoint whose auth block is present and enabled, in a service whose
auth is enabled, the chain starts with the guard built from the lists of the
endpoint's block. -/
theorem buildMiddlewaresChain_head_guard (s : Service) (endpoint : EndpointConfiguration)
    (a : EndpointAuth) (hs : s.authEnabled = true) (ha : endpoint.Auth = some a)
    (hen : a.Enabled = true) (middlewares : List HandlerFunc)
    (hm : s.buildMiddlewaresChain endpoint = some middlewares) :
    middlewares.head? =
      some (HandlerFunc.Guard s.authMiddleware a.AuthorizedRoles a.RequiredPermission) := by
  obtain ⟨method, path, au, rl, mb, mh⟩ := endpoint
  simp only at ha
  subst ha
  rcases mb with _ | mb <;> rcases mh with _ | mh <;>
    rcases rl with _ | ⟨⟨_ | _, _ | limitBy, _ | window, _ | maxCount⟩⟩ <;>
    simp [Service.buildMiddlewaresChain, hs, hen] at hm <;>
    (subst hm; rfl)

/-- The guard built with no accepted role and no accepted permission admits
exactly the requests whose token is extracted, accepted by the verifier and
parsed: the claim checkers are not run. -/
theorem guard_without_lists (parseUnverified : String → Option jwt.Token)
    (m : auth.AuthMiddleware) (c : gin.Context) :
    (m.Guard parseUnverified [] [] c).2 = gin.Ctl.next ↔
      ∃ rawToken token, auth.extractToken c = .ok rawToken ∧ m.Verifier rawToken = true ∧
        parseUnverified rawToken = some token := by
  unfold auth.AuthMiddleware.Guard
  cases hx : auth.extractToken c with
  | error e => simp
  | ok rawToken =>
    cases hv : m.Verifier rawToken with
    | false => simp [hv]
    | true =>
      cases hp : parseUnverified rawToken with
      | none => simp [hv, hp]
      | some token => simp [hv, hp]

open service in
/-- C28: no auth backfill.  For an endpoint that declares its own auth block,
enabled or not, the merge leaves the block as it is, whatever the service
configuration.  When the lists of the block are empty and the block is
enabled in a service with auth, the chain of the merged endpoint starts with
the guard built from these empty lists, and that guard admits exactly the
requests whose token is extracted, verified and parsed: it runs no role and
no permission check. -/
theorem no_auth_backfill (e : EndpointConfiguration) (conf : Config) (a : EndpointAuth)
    (ha : e.Auth = some a) :
    (e.MergeFromServiceConfiguration conf).Auth = some a ∧
    (a.AuthorizedRoles = [] → a.RequiredPermission = [] →
      (∀ (s : Service) (middlewares : List HandlerFunc),
        s.authEnabled = true → a.Enabled = true →
        s.buildMiddlewaresChain (e.MergeFromServiceConfiguration conf) = some middlewares →
        middlewares.head? = some (HandlerFunc.Guard s.authMiddleware [] [])) ∧
      (∀ (parseUnverified : String → Option jwt.Token) (m : auth.AuthMiddleware)
        (c : gin.Context),
        (m.Guard parseUnverified a.AuthorizedRoles a.RequiredPermission c).2 = gin.Ctl.next ↔
          ∃ rawToken token, auth.extractToken c = .ok rawToken ∧
            m.Verifier rawToken = true ∧ parseUnverified rawToken = some token)) := by
  have hkeep : (e.MergeFromServiceConfiguration conf).Auth = some a := by
    rw [merge_Auth]
    simp [ha]
  refine ⟨hkeep, ?_⟩
  intro hr hp
  constructor
  · intro s middlewares hs hen hm
    have h := buildMiddlewaresChain_head_guard s _ a hs hkeep hen middlewares hm
    rw [hr, hp] at h
    exact h
  · intro parseUnverified m c
    rw [hr, hp]
    exact guard_without_lists parseUnverified m c

open service in
/-- Witness of C28: under the configuration of the test "Auth well merged",
whose service lists the role and the permission `user`, the endpoint
`bareAuth` keeps its block with empty lists. -/
theorem no_auth_backfill_witness :
    (bareAuth.MergeFromServiceConfiguration authConf).Auth =
      some { Enabled := true, AuthorizedRoles := [], RequiredPermission := [] } :=
  (no_auth_backfill bareAuth authConf { Enabled := true } rfl).1

/-! ### The header-size limiter -/

/-- C21, the code at the failing input: a request whose one header `X-Token`
has a value of 32 bytes, 39 bytes of names and values in all, under a limit of
20.  The limiter adds to the length of each name the number of its values, not
their sizes: it finds 8, and passes the request to the next stage.  On the
header of the tests it answers 431 for the limit 1 and passes for the limit
10000000. -/
theorem header_limit_counts_values :
    (headersizelimiter.Limit 20 tokenHeaderContext).2 = gin.Ctl.next ∧
    (headersizelimiter.Limit 20 tokenHeaderContext).1.aborted = false ∧
    specHeaderBytes tokenHeaderContext.Request.Header = 39 ∧
    headerMeasure tokenHeaderContext.Request.Header = 8 ∧
    (headersizelimiter.Limit 1 testHeaderContext).1.Writer.status = 431 ∧
    (headersizelimiter.Limit 10000000 testHeaderContext).2 = gin.Ctl.next := by
  refine ⟨by decide, by decide, by decide, by decide, by decide, by decide⟩

theorem headerMeasure_cons (entry : String × List String) (rest : http.Header) :
    headerMeasure (entry :: rest) =
      (entry.1.utf8ByteSize : Int) + (entry.2.length : Int) + headerMeasure rest := by
  simp [headerMeasure]

theorem headerMeasure_nonneg (h : http.Header) : 0 ≤ headerMeasure h := by
  induction h with
  | nil => simp [headerMeasure]
  | cons entry rest ih =>
    rw [headerMeasure_cons]
    omega

theorem headerMeasure_perm (h h' : http.Header) (hperm : h.Perm h') :
    headerMeasure h = headerMeasure h' := by
  unfold headerMeasure
  exact (hperm.map _).sum_eq

/-- The loop of the limiter reports an excess exactly when it visits at least
one entry and the running total with all the entries added exceeds the limit. -/
theorem exceeds_iff (maxHeaderBytes : Int) (h : http.Header) :
    ∀ headerSize : Int, headersizelimiter.exceeds maxHeaderBytes headerSize h = true ↔
      h ≠ [] ∧ headerSize + headerMeasure h > maxHeaderBytes := by
  induction h with
  | nil => intro headerSize; simp [headersizelimiter.exceeds]
  | cons entry rest ih =>
    intro headerSize
    obtain ⟨key, val⟩ := entry
    have hnn := headerMeasure_nonneg rest
    simp only [headersizelimiter.exceeds, headerMeasure_cons]
    by_cases hgt : headerSize + (key.utf8ByteSize : Int) + (val.length : Int) > maxHeaderBytes
    · simp only [hgt, if_true, true_iff]
      exact ⟨by simp, by omega⟩
    · simp only [hgt, if_false]
      rw [ih]
      constructor
      · rintro ⟨_, h2⟩
        exact ⟨by simp, by omega⟩
      · rintro ⟨_, h2⟩
        refine ⟨?_, by omega⟩
        intro hnil
        subst hnil
        simp [headerMeasure] at h2
        omega

/-- Counterexample to C29 as stated: with the limit -1 and no header at all,
the sum over the entries is 0, which exceeds the limit, yet the limiter, which
compares inside its loop only, passes the request on. -/
theorem header_limit_empty_negative :
    (headersizelimiter.Limit (-1) {}).2 = gin.Ctl.next ∧
    headerMeasure ({} : gin.Context).Request.Header > -1 := by
  refine ⟨by decide, by decide⟩

/-- C29, amended: the decision of the header-size limiter does not depend on
the order in which the entries of the header map are visited, for every limit.
When the limit is not negative or the header map is not empty, the limiter
rejects (with `AbortWithStatusJSON(431, _)`) exactly when the sum over all
entries of the length of the name plus the number of values exceeds the
limit, and passes the request on otherwise; an empty header map is always
passed on. -/
theorem header_limit_order_independent (maxHeaderBytes : Int) (c c' : gin.Context)
    (hperm : c.Request.Header.Perm c'.Request.Header) :
    (headersizelimiter.Limit maxHeaderBytes c).2 =
      (headersizelimiter.Limit maxHeaderBytes c').2 ∧
    ((0 ≤ maxHeaderBytes ∨ c.Request.Header ≠ []) →
      (headerMeasure c.Request.Header > maxHeaderBytes →
        headersizelimiter.Limit maxHeaderBytes c =
          (c.AbortWithStatusJSON 431 "headers too large", gin.Ctl.ret)) ∧
      (¬ headerMeasure c.Request.Header > maxHeaderBytes →
        headersizelimiter.Limit maxHeaderBytes c = (c, gin.Ctl.next))) ∧
    (c.Request.Header = [] →
      headersizelimiter.Limit maxHeaderBytes c = (c, gin.Ctl.next)) := by
  have hex : headersizelimiter.exceeds maxHeaderBytes 0 c.Request.Header =
      headersizelimiter.exceeds maxHeaderBytes 0 c'.Request.Header := by
    rw [Bool.eq_iff_iff, exceeds_iff, exceeds_iff, headerMeasure_perm _ _ hperm]
    constructor
    · rintro ⟨h1, h2⟩
      exact ⟨fun hnil => h1 (List.Perm.eq_nil (hnil ▸ hperm)), h2⟩
    · rintro ⟨h1, h2⟩
      exact ⟨fun hnil => h1 (List.Perm.eq_nil (hnil ▸ hperm.symm)), h2⟩
  refine ⟨?_, ?_, ?_⟩
  · unfold headersizelimiter.Limit
    rw [hex]
    split_ifs <;> rfl
  · intro hcase
    constructor
    · intro hgt
      have hne : c.Request.Header ≠ [] := by
        intro hnil
        rw [hnil] at hgt
        rcases hcase with h0 | h0
        · simp [headerMeasure] at hgt
          omega
        · exact h0 hnil
      have : headersizelimiter.exceeds maxHeaderBytes 0 c.Request.Header = true :=
        (exceeds_iff _ _ 0).mpr ⟨hne, by omega⟩
      simp [headersizelimiter.Limit, this, http.StatusRequestHeaderFieldsTooLarge]
    · intro hle
      have : headersizelimiter.exceeds maxHeaderBytes 0 c.Request.Header = false := by
        rw [Bool.eq_false_iff]
        intro h
        have := ((exceeds_iff _ _ 0).mp h).2
        omega
      simp [headersizelimiter.Limit, this]
  · intro hnil
    simp [headersizelimiter.Limit, hnil, headersizelimiter.exceeds]

/-- Witness of C29 amended: the two orders of the headers `A: 1` and
`Bb: 2, 3` give the same decision under the limit 4, a rejection, the sum
being 5. -/
theorem header_limit_order_independent_witness :
    (headersizelimiter.Limit 4
        { Request := { Header := [("A", ["1"]), ("Bb", ["2", "3"])] } }).2 =
      (headersizelimiter.Limit 4
        { Request := { Header := [("Bb", ["2", "3"]), ("A", ["1"])] } }).2 ∧
    (headersizelimiter.Limit 4
        { Request := { Header := [("A", ["1"]), ("Bb", ["2", "3"])] } }).2 = gin.Ctl.ret :=
  ⟨(header_limit_order_independent 4
      { Request := { Header := [("A", ["1"]), ("Bb", ["2", "3"])] } }
      { Request := { Header := [("Bb", ["2", "3"]), ("A", ["1"])] } }
      (List.Perm.swap _ _ _)).1,
   by decide⟩

/-! ### The burst bound of the fixed window -/

/-- The three outcomes of a call of `allow`, with the result and the entry of
the key after the call. -/
theorem allow_cases (f : fixedWindowCounter) (k : String) (t : Int) :
    (f.allow k t).1.window = f.window ∧ (f.allow k t).1.maxCount = f.maxCount ∧
    (((f.counters k = none ∨ ∃ e, f.counters k = some e ∧ t - e.timestamp > f.window) ∧
        (f.allow k t).2 = true ∧
        (f.allow k t).1.counters k = some { timestamp := t, count := 1 }) ∨
      (∃ e, f.counters k = some e ∧ ¬ (t - e.timestamp > f.window) ∧ e.count < f.maxCount ∧
        (f.allow k t).2 = true ∧
        (f.allow k t).1.counters k =
          some { timestamp := e.timestamp, count := e.count + 1 }) ∨
      (∃ e, f.counters k = some e ∧ ¬ (t - e.timestamp > f.window) ∧
        ¬ (e.count < f.maxCount) ∧
        (f.allow k t).2 = false ∧ (f.allow k t).1.counters k = some e)) := by
  obtain ⟨hw, hm, _⟩ := allow_shape f k t
  refine ⟨hw, hm, ?_⟩
  cases hk : f.counters k with
  | none =>
    left
    exact ⟨Or.inl rfl, by simp [fixedWindowCounter.allow, hk, Map.set_same]⟩
  | some e =>
    by_cases h1 : t - e.timestamp > f.window
    · left
      exact ⟨Or.inr ⟨e, rfl, h1⟩, by simp [fixedWindowCounter.allow, hk, h1, Map.set_same]⟩
    · by_cases h2 : e.count < f.maxCount
      · right; left
        exact ⟨e, rfl, h1, h2, by simp [fixedWindowCounter.allow, hk, h1, h2, Map.set_same]⟩
      · right; right
        exact ⟨e, rfl, h1, h2, by simp [fixedWindowCounter.allow, hk, h1, h2]⟩

theorem admittedWithin_cons (a b : Int) (f : fixedWindowCounter) (k : String) (t : Int)
    (ts : List Int) :
    admittedWithin a b f k (t :: ts) =
      (if (f.allow k t).2 = true ∧ a ≤ t ∧ t ≤ b then 1 else 0) +
        admittedWithin a b (f.allow k t).1 k ts := by
  simp only [admittedWithin, allowSeq, List.zip_cons_cons, List.filter_cons]
  by_cases h : (f.allow k t).2 = true ∧ a ≤ t ∧ t ≤ b
  · obtain ⟨h1, h2, h3⟩ := h
    simp [h1, h2, h3]
    omega
  · rw [if_neg h]
    have : ((f.allow k t).2 && decide (a ≤ t) && decide (t ≤ b)) = false := by
      rw [Bool.eq_false_iff]
      intro hc
      simp only [Bool.and_eq_true, decide_eq_true_eq] at hc
      exact h ⟨hc.1.1, hc.1.2, hc.2⟩
    simp [this]

/-- Calls made after the end of the span are not counted. -/
theorem admittedWithin_late (a b : Int) (k : String) (ts : List Int) :
    ∀ f : fixedWindowCounter, (∀ t ∈ ts, b < t) → admittedWithin a b f k ts = 0 := by
  induction ts with
  | nil => intro f _; rfl
  | cons t ts ih =>
    intro f h
    have ht : ¬ t ≤ b := by
      have := h t (List.mem_cons_self _ _)
      omega
    rw [admittedWithin_cons, ih _ (fun u hu => h u (List.mem_cons_of_mem _ hu))]
    simp [ht]

/-- Within a window that stays open until after the end of the span, the calls
admitted in the span use up the budget left in the window: they are at most
`m` as soon as `maxCount - count ≤ m`. -/
theorem admittedWithin_one_window (a b : Int) (k : String) (ts : List Int) :
    ∀ (f : fixedWindowCounter) (start count m : Int),
      f.counters k = some { timestamp := start, count := count } →
      ts.Pairwise (fun x y => x ≤ y) → b < start + f.window →
      f.maxCount - count ≤ m → 0 ≤ m →
      (admittedWithin a b f k ts : Int) ≤ m := by
  induction ts with
  | nil =>
    intro f start count m _ _ _ _ hm
    simpa [admittedWithin] using hm
  | cons t ts ih =>
    intro f start count m hk hsorted hb hbudget hm
    obtain ⟨hle, hsorted'⟩ := List.pairwise_cons.mp hsorted
    by_cases htb : t ≤ b
    · obtain ⟨hw, hmax, hcase⟩ := allow_cases f k t
      rcases hcase with ⟨hreset, _, _⟩ | ⟨e, he, _, hlt, hres, hnew⟩ | ⟨e, he, _, hge, hres, hnew⟩
      · rcases hreset with hnone | ⟨e, he, hgt⟩
        · rw [hk] at hnone
          cases hnone
        · rw [hk] at he
          cases he
          simp only at hgt
          omega
      · rw [hk] at he
        cases he
        simp only at hlt hnew
        have hrest := ih (f.allow k t).1 start (count + 1) (m - 1) hnew hsorted'
          (by rw [hw]; exact hb) (by rw [hmax]; omega) (by omega)
        rw [admittedWithin_cons]
        split_ifs
        · push_cast
          omega
        · push_cast
          omega
      · rw [hk] at he
        cases he
        have hrest := ih (f.allow k t).1 start count m hnew hsorted'
          (by rw [hw]; exact hb) (by rw [hmax]; exact hbudget) hm
        rw [admittedWithin_cons, hres]
        simpa using hrest
    · have hlate : ∀ u ∈ ts, b < u := by
        intro u hu
        have := hle u hu
        omega
      rw [admittedWithin_cons, admittedWithin_late a b k ts _ hlate]
      simp [htb]
      exact hm

/-- From an entry on, among calls made no earlier than `t1` and counted up to
the end `b < t1 + window` of the span: the calls admitted in the span are at
most the budget left in the current window plus the `maxCount` of the one
window that can open before `b`. -/
theorem admittedWithin_two_windows (a b : Int) (k : String) (ts : List Int) :
    ∀ (f : fixedWindowCounter) (start count t1 m : Int),
      f.counters k = some { timestamp := start, count := count } →
      ts.Pairwise (fun x y => x ≤ y) → (∀ t ∈ ts, t1 ≤ t) → b < t1 + f.window →
      1 ≤ f.maxCount → f.maxCount - count ≤ m → 0 ≤ m →
      (admittedWithin a b f k ts : Int) ≤ m + f.maxCount := by
  induction ts with
  | nil =>
    intro f start count t1 m _ _ _ _ hN _ hm
    simp only [admittedWithin, allowSeq, List.zip_nil_left, List.filter_nil, List.length_nil,
      Nat.cast_zero]
    omega
  | cons t ts ih =>
    intro f start count t1 m hk hsorted hlo hb hN hbudget hm
    obtain ⟨hle, hsorted'⟩ := List.pairwise_cons.mp hsorted
    have ht1 : t1 ≤ t := hlo t (List.mem_cons_self _ _)
    have hlo' : ∀ u ∈ ts, t1 ≤ u := fun u hu => hlo u (List.mem_cons_of_mem _ hu)
    by_cases htb : t ≤ b
    · obtain ⟨hw, hmax, hcase⟩ := allow_cases f k t
      rcases hcase with ⟨_, _, hnew⟩ | ⟨e, he, _, hlt, _, hnew⟩ | ⟨e, he, _, hge, hres, hnew⟩
      · have hrest := admittedWithin_one_window a b k ts (f.allow k t).1 t 1
          (f.maxCount - 1) hnew hsorted' (by rw [hw]; omega) (by rw [hmax]) (by omega)
        rw [admittedWithin_cons]
        split_ifs
        · push_cast
          omega
        · push_cast
          omega
      · rw [hk] at he
        cases he
        simp only at hlt hnew
        have hrest := ih (f.allow k t).1 start (count + 1) t1 (m - 1) hnew hsorted' hlo'
          (by rw [hw]; exact hb) (by rw [hmax]; exact hN) (by rw [hmax]; omega) (by omega)
        rw [hmax] at hrest
        rw [admittedWithin_cons]
        split_ifs
        · push_cast
          omega
        · push_cast
          omega
      · rw [hk] at he
        cases he
        have hrest := ih (f.allow k t).1 start count t1 m hnew hsorted' hlo'
          (by rw [hw]; exact hb) (by rw [hmax]; exact hN) (by rw [hmax]; exact hbudget) hm
        rw [hmax] at hrest
        rw [admittedWithin_cons, hres]
        simpa using hrest
    · have hlate : ∀ u ∈ ts, b < u := by
        intro u hu
        have := hle u hu
        omega
      rw [admittedWithin_cons, admittedWithin_late a b k ts _ hlate]
      simp [htb]
      omega

/-- The burst bound from any state whose entry for the key, if any, has a
count of at least 1. -/
theorem admittedWithin_bound (a b : Int) (k : String) (ts : List Int) :
    ∀ f : fixedWindowCounter,
      (f.counters k = none ∨ ∃ e, f.counters k = some e ∧ 1 ≤ e.count) →
      ts.Pairwise (fun x y => x ≤ y) → b - a < f.window → 1 ≤ f.maxCount →
      (admittedWithin a b f k ts : Int) ≤ 2 * f.maxCount := by
  induction ts with
  | nil =>
    intro f _ _ _ hN
    simp only [admittedWithin, allowSeq, List.zip_nil_left, List.filter_nil, List.length_nil,
      Nat.cast_zero]
    omega
  | cons t ts ih =>
    intro f hinv hsorted hspan hN
    obtain ⟨hle, hsorted'⟩ := List.pairwise_cons.mp hsorted
    obtain ⟨hw, hmax, hcase⟩ := allow_cases f k t
    have hentry : ∃ e, (f.allow k t).1.counters k = some e ∧ 1 ≤ e.count := by
      rcases hcase with ⟨_, _, hnew⟩ | ⟨e, he, _, _, _, hnew⟩ | ⟨e, he, _, _, _, hnew⟩
      · exact ⟨_, hnew, le_refl _⟩
      · refine ⟨_, hnew, ?_⟩
        rcases hinv with hnone | ⟨e', he', h1⟩
        · rw [he] at hnone
          cases hnone
        · rw [he] at he'
          cases he'
          show 1 ≤ e.count + 1
          omega
      · refine ⟨_, hnew, ?_⟩
        rcases hinv with hnone | ⟨e', he', h1⟩
        · rw [he] at hnone
          cases hnone
        · rw [he] at he'
          cases he'
          exact h1
    rw [admittedWithin_cons]
    by_cases hcount : (f.allow k t).2 = true ∧ a ≤ t ∧ t ≤ b
    · obtain ⟨e, he, h1⟩ := hentry
      have hrest := admittedWithin_two_windows a b k ts (f.allow k t).1 e.timestamp e.count t
        (f.maxCount - 1) he hsorted' hle (by rw [hw]; omega) (by rw [hmax]; exact hN)
        (by rw [hmax]; omega) (by omega)
      rw [hmax] at hrest
      rw [if_pos hcount]
      push_cast
      omega
    · have hrest := ih (f.allow k t).1 (Or.inr hentry) hsorted' (by rw [hw]; exact hspan)
        (by rw [hmax]; exact hN)
      rw [hmax] at hrest
      rw [if_neg hcount]
      simpa using hrest

/-- C23: the burst bound of the fixed window.  For every window `W`, every
maximal count `N ≥ 1` and every sequence of calls for one key at non-decreasing
times, from a limiter without entries: the admitted calls whose times fall in
a span `[a, b]` shorter than `W` are at most `2 × N`. -/
theorem burst_bound (W N : Int) (hN : 1 ≤ N) (k : String) (ts : List Int)
    (hts : ts.Pairwise (fun x y => x ≤ y)) (a b : Int) (hspan : b - a < W) :
    (admittedWithin a b (emptyLimiter W N) k ts : Int) ≤ 2 * N :=
  admittedWithin_bound a b k ts (emptyLimiter W N) (Or.inl rfl) hts hspan hN

/-- Witness of C23: a window of two seconds and at most two calls; of the calls
at 0 s, 1.9 s, 2.1 s and 2.2 s, all admitted, three fall in the span from
1.9 s to 2.2 s, more than `N` and no more than `2 × N`. -/
theorem burst_bound_witness :
    admittedWithin 1900000000 2200000000 (emptyLimiter 2000000000 2) "id"
      [0, 1900000000, 2100000000, 2200000000] = 3 ∧
    (admittedWithin 1900000000 2200000000 (emptyLimiter 2000000000 2) "id"
      [0, 1900000000, 2100000000, 2200000000] : Int) ≤ 2 * 2 :=
  ⟨by decide,
   burst_bound 2000000000 2 (by decide) "id" [0, 1900000000, 2100000000, 2200000000]
     (by decide) 1900000000 2200000000 (by decide)⟩

end Gateway
